import Mathlib

/-!
# Verification of the Harada Method tracker

A shallow embedding of the Harada Method goal-tracking application
(Express + better-sqlite3 backend, React frontend) and proofs about it.

The embedding covers:
* the `sub_goals` / `action_items` tables and their DDL constraints
  (`backend/src/db/database.ts`, whose source is included in
  `ARCHITECTURE.md`; the stale copy `backend/src/db/init.sql` is also
  embedded for comparison — nothing in the application loads it),
* the reorder, create, update and delete route handlers
  (`backend/src/routes/subgoals.ts`, `actions.ts`, `goals.ts`),
* the import position-placement logic (`backend/src/routes/goals.ts`),
* the 9×9 grid coordinate tables (frontend `FullGridView`),
* the color-derivation helpers (frontend `utils/color.ts`),
* the response-envelope shapes of representative endpoints.

SQL state is modelled as lists of rows; database writes that would
violate a declared constraint are modelled as failing (the statement
throws, the enclosing `db.transaction` rolls back).  Identifiers and
timestamps are modelled as naturals, positions as integers (`INTEGER`
columns), and JavaScript numbers arriving from JSON payloads as
rationals.
-/

namespace Harada

/-! ## Rows of the position-carrying tables

`sub_goals` rows carry `(id, primary_goal_id, position, …, updated_at)`
and `action_items` rows carry `(id, sub_goal_id, position, …, updated_at)`
(`database.ts` SCHEMA).  The reorder/create logic only touches the id,
the parent foreign key, the position and the `updated_at` column, so a
single row structure serves both tables; `parentId` stands for
`primary_goal_id` on sub-goal rows and for `sub_goal_id` on action rows.
Text columns (`title`, `description`, …) are not inspected by any claim
and are omitted. -/

structure Row where
  id : Nat
  parentId : Nat
  position : Int
  updated_at : Nat
  deriving DecidableEq, Repr

/-- Rows of the `sub_goals` table; `parentId` embeds `primary_goal_id`. -/
abbrev SubGoalRow := Row

/-- Rows of the `action_items` table; `parentId` embeds `sub_goal_id`. -/
abbrev ActionRow := Row

/-! ## DDL position constraints

`database.ts` SCHEMA (executed by `initDatabase()` at server start):
`position INTEGER NOT NULL CHECK(position >= -99 AND position <= 8)`
on both `sub_goals` and `action_items`.

`db/init.sql` (present in the repository but referenced by no code)
instead declares `CHECK(position >= 1 AND position <= 8)`. -/

/-- The `CHECK` constraint on `sub_goals.position` in the schema the
server actually executes (`database.ts`). -/
def subGoalsPositionCheck (p : Int) : Prop := -99 ≤ p ∧ p ≤ 8

/-- The `CHECK` constraint on `action_items.position` in the schema the
server actually executes (`database.ts`). -/
def actionItemsPositionCheck (p : Int) : Prop := -99 ≤ p ∧ p ≤ 8

/-- The `CHECK` constraint on `sub_goals.position` and
`action_items.position` as written in the unused `db/init.sql` copy. -/
def initSqlPositionCheck (p : Int) : Prop := 1 ≤ p ∧ p ≤ 8

instance (p : Int) : Decidable (subGoalsPositionCheck p) := by
  unfold subGoalsPositionCheck; infer_instance

instance (p : Int) : Decidable (actionItemsPositionCheck p) := by
  unfold actionItemsPositionCheck; infer_instance

instance (p : Int) : Decidable (initSqlPositionCheck p) := by
  unfold initSqlPositionCheck; infer_instance

/-! ## Table invariants -/

/-- A position a row may hold in a quiescent state: the positions the
create routes accept, `1..8`. -/
def posInRange (p : Int) : Prop := 1 ≤ p ∧ p ≤ 8

instance (p : Int) : Decidable (posInRange p) := by
  unfold posInRange; infer_instance

/-- The `UNIQUE(primary_goal_id, position)` / `UNIQUE(sub_goal_id, position)`
constraint: two rows with distinct ids sharing a parent never share a
position. -/
def siblingsDistinct (t : List Row) : Prop :=
  ∀ a ∈ t, ∀ b ∈ t, a.id ≠ b.id → a.parentId = b.parentId → a.position ≠ b.position

/-- The `id TEXT PRIMARY KEY` constraint: ids are pairwise distinct. -/
def idsUnique (t : List Row) : Prop := (t.map Row.id).Nodup

/-- All rows of the table sit at a quiescent position in `1..8`. -/
def allInRange (t : List Row) : Prop := ∀ r ∈ t, posInRange r.position

instance (t : List Row) : Decidable (siblingsDistinct t) := by
  unfold siblingsDistinct; infer_instance

instance (t : List Row) : Decidable (idsUnique t) := by
  unfold idsUnique; infer_instance

instance (t : List Row) : Decidable (allInRange t) := by
  unfold allInRange; infer_instance

/-! ## The reorder handlers

`routes/subgoals.ts` `POST /:subgoalId/reorder` and `routes/actions.ts`
`POST /:actionId/reorder` are the same routine over their respective
tables: validate `targetPosition`, look up the source row by id, return
it unchanged when it already sits at the target, otherwise look up the
occupant of the target slot among the source's siblings and run a
three-step swap inside `db.transaction`. -/

/-- `UPDATE <table> SET position = ?, updated_at = ? WHERE id = ?`. -/
def setPos (t : List Row) (i : Nat) (p : Int) (now : Nat) : List Row :=
  t.map fun r => if r.id = i then { r with position := p, updated_at := now } else r

/-- `SELECT * FROM <table> WHERE id = ?` (`.get`, first match). -/
def findRow (t : List Row) (i : Nat) : Option Row :=
  t.find? fun r => r.id == i

/-- `SELECT * FROM <table> WHERE <parent column> = ? AND position = ?`. -/
def findByParentPos (t : List Row) (parent : Nat) (p : Int) : Option Row :=
  t.find? fun r => r.parentId == parent && r.position == p

/-- The body of the reorder `db.transaction`: step 1 moves the source to
the sentinel position `-1`, step 2 moves the conflicting occupant (if
any) to the source's old position, step 3 moves the source to the
target position. -/
def reorderSteps (t : List Row) (src : Row) (conflicting : Option Row)
    (targetPos : Int) (now : Nat) : List Row :=
  let t1 := setPos t src.id (-1) now
  let t2 := match conflicting with
    | some c => setPos t1 c.id src.position now
    | none => t1
  setPos t2 src.id targetPos now

/-- Outcome of a reorder request, as reported in the HTTP response. -/
inductive ReorderOutcome where
  | badRequest
  | notFound
  | ok (row : Row)
  deriving DecidableEq, Repr

/-- The reorder handler shared by `POST /:subgoalId/reorder`
(`routes/subgoals.ts`) and `POST /:actionId/reorder`
(`routes/actions.ts`): the two files contain the same logic over their
respective tables. -/
def reorderHandler (t : List Row) (srcId : Nat) (targetPosition : Int)
    (now : Nat) : List Row × ReorderOutcome :=
  if targetPosition < 1 ∨ 8 < targetPosition then (t, .badRequest)
  else
    match findRow t srcId with
    | none => (t, .notFound)
    | some src =>
      if src.position = targetPosition then (t, .ok src)
      else
        let conflicting := findByParentPos t src.parentId targetPosition
        let t3 := reorderSteps t src conflicting targetPosition now
        (t3, .ok ((findRow t3 srcId).getD src))

/-- `POST /:subgoalId/reorder` over the `sub_goals` table. -/
def reorderSubGoalHandler (t : List SubGoalRow) (srcId : Nat)
    (targetPosition : Int) (now : Nat) : List SubGoalRow × ReorderOutcome :=
  reorderHandler t srcId targetPosition now

/-- `POST /:actionId/reorder` over the `action_items` table. -/
def reorderActionHandler (t : List ActionRow) (srcId : Nat)
    (targetPosition : Int) (now : Nat) : List ActionRow × ReorderOutcome :=
  reorderHandler t srcId targetPosition now

/-- The net effect of the three-step swap on a single row: the source
ends at the target position, the former occupant (when there was one)
ends at the source's old position, and every other row is untouched. -/
def swapFn (src : Row) (conflicting : Option Row) (tp : Int) (now : Nat)
    (r : Row) : Row :=
  if r.id = src.id then { r with position := tp, updated_at := now }
  else
    match conflicting with
    | some c =>
      if r.id = c.id then { r with position := src.position, updated_at := now }
      else r
    | none => r

/-! ### Basic lemmas about lookups and updates -/

theorem findRow_eq_some {t : List Row} {i : Nat} {src : Row}
    (h : findRow t i = some src) : src ∈ t ∧ src.id = i := by
  refine ⟨List.mem_of_find?_eq_some h, ?_⟩
  have := List.find?_some h
  simpa using this

theorem findByParentPos_eq_some {t : List Row} {parent : Nat} {p : Int} {c : Row}
    (h : findByParentPos t parent p = some c) :
    c ∈ t ∧ c.parentId = parent ∧ c.position = p := by
  refine ⟨List.mem_of_find?_eq_some h, ?_, ?_⟩ <;>
  · have := List.find?_some h
    simp only [Bool.and_eq_true, beq_iff_eq] at this
    tauto

theorem findByParentPos_eq_none {t : List Row} {parent : Nat} {p : Int}
    (h : findByParentPos t parent p = none) :
    ∀ r ∈ t, r.parentId = parent → r.position ≠ p := by
  intro r hr hpar hpos
  have := List.find?_eq_none.mp h r hr
  simp only [Bool.and_eq_true, beq_iff_eq] at this
  exact this ⟨hpar, hpos⟩

/-- Id uniqueness makes rows with equal ids equal. -/
theorem eq_of_mem_of_id_eq {t : List Row} (hids : idsUnique t)
    {a b : Row} (ha : a ∈ t) (hb : b ∈ t) (h : a.id = b.id) : a = b := by
  induction t with
  | nil => cases ha
  | cons x xs ih =>
    rw [idsUnique, List.map_cons, List.nodup_cons] at hids
    rcases List.mem_cons.mp ha with rfl | ha' <;>
      rcases List.mem_cons.mp hb with rfl | hb'
    · rfl
    · exact absurd (h ▸ List.mem_map_of_mem Row.id hb') hids.1
    · exact absurd (h ▸ List.mem_map_of_mem Row.id ha') hids.1
    · exact ih hids.2 ha' hb'

/-- `siblingsDistinct` transfers along a row-wise update that keeps ids
and parents, provided the new positions of any two distinct siblings
still differ. -/
theorem siblingsDistinct_map (t : List Row) (f : Row → Row)
    (hid : ∀ r, (f r).id = r.id) (hpar : ∀ r, (f r).parentId = r.parentId)
    (h : ∀ a ∈ t, ∀ b ∈ t, a.id ≠ b.id → a.parentId = b.parentId →
      (f a).position ≠ (f b).position) :
    siblingsDistinct (t.map f) := by
  intro a' ha' b' hb' hne hpar'
  obtain ⟨a, ha, rfl⟩ := List.mem_map.mp ha'
  obtain ⟨b, hb, rfl⟩ := List.mem_map.mp hb'
  exact h a ha b hb (by simpa [hid] using hne) (by simpa [hpar] using hpar')

theorem setPos_eq_map (t : List Row) (i : Nat) (p : Int) (now : Nat) :
    setPos t i p now =
      t.map fun r => if r.id = i then { r with position := p, updated_at := now } else r :=
  rfl

theorem map_id_setPos (t : List Row) (i : Nat) (p : Int) (now : Nat) :
    (setPos t i p now).map Row.id = t.map Row.id := by
  rw [setPos, List.map_map]
  refine List.map_congr_left fun r _ => ?_
  by_cases h : r.id = i <;> simp [h]

theorem idsUnique_setPos {t : List Row} (hids : idsUnique t)
    (i : Nat) (p : Int) (now : Nat) : idsUnique (setPos t i p now) := by
  rw [idsUnique, map_id_setPos]; exact hids

/-- If a conflicting occupant of the target slot exists, it is a row
other than the source (their positions differ). -/
theorem conflicting_id_ne_src {t : List Row} {src c : Row} {tp : Int}
    (hids : idsUnique t) (hsrc : src ∈ t) (hne : src.position ≠ tp)
    (hc : findByParentPos t src.parentId tp = some c) : c.id ≠ src.id := by
  obtain ⟨hcm, _, hcpos⟩ := findByParentPos_eq_some hc
  intro h
  have hcs : c = src := eq_of_mem_of_id_eq hids hcm hsrc h
  exact hne (by rw [← hcs, hcpos])

/-! ### The swap realizes its specification -/

/-- Step 1 of the swap: moving the source to the sentinel `-1` cannot
collide with any sibling, whose positions all lie in `1..8`. -/
theorem step1_distinct (t : List Row) (src : Row) (now : Nat)
    (hdist : siblingsDistinct t) (hrange : allInRange t) :
    siblingsDistinct (setPos t src.id (-1) now) := by
  rw [setPos_eq_map]
  refine siblingsDistinct_map t _ (fun r => ?_) (fun r => ?_) ?_
  · by_cases h : r.id = src.id <;> simp [h]
  · by_cases h : r.id = src.id <;> simp [h]
  · intro a ha b hb hne hpar
    by_cases ha1 : a.id = src.id <;> by_cases hb1 : b.id = src.id
    · exact absurd (ha1.trans hb1.symm) hne
    · simp only [if_pos ha1, if_neg hb1]
      show (-1 : Int) ≠ b.position
      have h1 := (hrange b hb).1
      omega
    · simp only [if_neg ha1, if_pos hb1]
      show a.position ≠ (-1 : Int)
      have h1 := (hrange a ha).1
      omega
    · simp only [if_neg ha1, if_neg hb1]
      exact hdist a ha b hb hne hpar

/-- Two successive single-row position updates on distinct ids, as one
row-wise pass. -/
theorem setPos_setPos_eq_map (t : List Row) (i j : Nat) (p q : Int) (now : Nat)
    (hij : i ≠ j) :
    setPos (setPos t i p now) j q now =
      t.map fun r =>
        if r.id = i then { r with position := p, updated_at := now }
        else if r.id = j then { r with position := q, updated_at := now }
        else r := by
  rw [setPos, setPos, List.map_map]
  refine List.map_congr_left fun r _ => ?_
  by_cases h1 : r.id = i
  · have h2 : r.id ≠ j := by rw [h1]; exact hij
    simp [Function.comp_def, h1, h2, hij]
  · by_cases h2 : r.id = j <;> simp [Function.comp_def, h1, h2, Ne.symm hij]

/-- Step 2 of the swap: moving the occupant of the target slot to the
source's old slot collides with nobody — the source now sits at the
sentinel and nobody else held the source's old position. -/
theorem step2_distinct (t : List Row) (src c : Row) (tp : Int) (now : Nat)
    (hids : idsUnique t) (hdist : siblingsDistinct t) (hrange : allInRange t)
    (hsrc : src ∈ t) (hne : src.position ≠ tp)
    (hc : findByParentPos t src.parentId tp = some c) :
    siblingsDistinct (setPos (setPos t src.id (-1) now) c.id src.position now) := by
  obtain ⟨hcm, hcpar, hcpos⟩ := findByParentPos_eq_some hc
  have hcne : c.id ≠ src.id := conflicting_id_ne_src hids hsrc hne hc
  rw [setPos_setPos_eq_map t src.id c.id (-1) src.position now (Ne.symm hcne)]
  refine siblingsDistinct_map t _ (fun r => ?_) (fun r => ?_) ?_
  · by_cases h1 : r.id = src.id <;> by_cases h2 : r.id = c.id <;>
      simp [h1, h2, hcne, Ne.symm hcne]
  · by_cases h1 : r.id = src.id <;> by_cases h2 : r.id = c.id <;>
      simp [h1, h2, hcne, Ne.symm hcne]
  · intro a ha b hb hab hpar
    by_cases ha1 : a.id = src.id <;> by_cases hb1 : b.id = src.id
    · exact absurd (ha1.trans hb1.symm) hab
    · -- a is the source (now at -1), b is untouched or moved to src.position
      simp only [if_pos ha1, if_neg hb1]
      by_cases hb2 : b.id = c.id
      · simp only [if_pos hb2]
        show (-1 : Int) ≠ src.position
        have h1 := (hrange src hsrc).1
        omega
      · simp only [if_neg hb2]
        show (-1 : Int) ≠ b.position
        have h1 := (hrange b hb).1
        omega
    · simp only [if_neg ha1, if_pos hb1]
      by_cases ha2 : a.id = c.id
      · simp only [if_pos ha2]
        show src.position ≠ (-1 : Int)
        have h1 := (hrange src hsrc).1
        omega
      · simp only [if_neg ha2]
        show a.position ≠ (-1 : Int)
        have h1 := (hrange a ha).1
        omega
    · simp only [if_neg ha1, if_neg hb1]
      by_cases ha2 : a.id = c.id <;> by_cases hb2 : b.id = c.id
      · exact absurd (ha2.trans hb2.symm) hab
      · -- a is the occupant, moved to the source's old position
        simp only [if_pos ha2, if_neg hb2]
        show src.position ≠ b.position
        have hac : a = c := eq_of_mem_of_id_eq hids ha hcm ha2
        have hbs : src.parentId = b.parentId := by
          rw [← hpar, hac, hcpar]
        exact hdist src hsrc b hb (Ne.symm hb1) hbs
      · simp only [if_neg ha2, if_pos hb2]
        show a.position ≠ src.position
        have hbc : b = c := eq_of_mem_of_id_eq hids hb hcm hb2
        have has : a.parentId = src.parentId := by
          rw [hpar, hbc, hcpar]
        exact hdist a ha src hsrc ha1 has
      · simp only [if_neg ha2, if_neg hb2]
        exact hdist a ha b hb hab hpar

/-- The three-step transaction equals the one-pass swap of positions. -/
theorem reorderSteps_eq_map (t : List Row) (src : Row) (conflicting : Option Row)
    (tp : Int) (now : Nat)
    (hcne : ∀ c, conflicting = some c → c.id ≠ src.id) :
    reorderSteps t src conflicting tp now = t.map (swapFn src conflicting tp now) := by
  cases conflicting with
  | none =>
    show setPos (setPos t src.id (-1) now) src.id tp now = _
    rw [setPos, setPos, List.map_map]
    refine List.map_congr_left fun r _ => ?_
    by_cases h1 : r.id = src.id <;> simp [Function.comp_def, swapFn, h1]
  | some c =>
    have hcs : c.id ≠ src.id := hcne c rfl
    show setPos (setPos (setPos t src.id (-1) now) c.id src.position now)
        src.id tp now = _
    rw [setPos_setPos_eq_map t src.id c.id (-1) src.position now (Ne.symm hcs),
      setPos, List.map_map]
    refine List.map_congr_left fun r _ => ?_
    by_cases h1 : r.id = src.id
    · have h2 : r.id ≠ c.id := by rw [h1]; exact Ne.symm hcs
      simp [Function.comp_def, swapFn, h1, h2, hcs, Ne.symm hcs]
    · by_cases h2 : r.id = c.id <;>
        simp [Function.comp_def, swapFn, h1, h2, hcs, Ne.symm hcs]

/-- Step 3 / the final state: nobody collides once the source occupies
the target slot and the former occupant the source's old slot. -/
theorem swap_distinct (t : List Row) (src : Row) (tp : Int) (now : Nat)
    (hids : idsUnique t) (hdist : siblingsDistinct t)
    (hsrc : src ∈ t) (hne : src.position ≠ tp) :
    siblingsDistinct (t.map (swapFn src (findByParentPos t src.parentId tp) tp now)) := by
  refine siblingsDistinct_map t _ (fun r => ?_) (fun r => ?_) ?_
  · unfold swapFn
    by_cases h1 : r.id = src.id
    · simp [h1]
    · simp only [if_neg h1]
      cases hfc : findByParentPos t src.parentId tp with
      | none => rfl
      | some c => by_cases h2 : r.id = c.id <;> simp [h2]
  · unfold swapFn
    by_cases h1 : r.id = src.id
    · simp [h1]
    · simp only [if_neg h1]
      cases hfc : findByParentPos t src.parentId tp with
      | none => rfl
      | some c => by_cases h2 : r.id = c.id <;> simp [h2]
  · intro a ha b hb hab hpar
    unfold swapFn
    cases hfc : findByParentPos t src.parentId tp with
    | none =>
      have hnone := findByParentPos_eq_none hfc
      by_cases ha1 : a.id = src.id <;> by_cases hb1 : b.id = src.id
      · exact absurd (ha1.trans hb1.symm) hab
      · simp only [if_pos ha1, if_neg hb1]
        show tp ≠ b.position
        have hbs : b.parentId = src.parentId := by
          rw [← hpar]
          have : a = src := eq_of_mem_of_id_eq hids ha hsrc ha1
          rw [this]
        exact (hnone b hb hbs).symm
      · simp only [if_neg ha1, if_pos hb1]
        show a.position ≠ tp
        have has : a.parentId = src.parentId := by
          rw [hpar]
          have : b = src := eq_of_mem_of_id_eq hids hb hsrc hb1
          rw [this]
        exact hnone a ha has
      · simp only [if_neg ha1, if_neg hb1]
        exact hdist a ha b hb hab hpar
    | some c =>
      obtain ⟨hcm, hcpar, hcpos⟩ := findByParentPos_eq_some hfc
      have hcs : c.id ≠ src.id := by
        intro h
        have : c = src := eq_of_mem_of_id_eq hids hcm hsrc h
        exact hne (by rw [← this, hcpos])
      by_cases ha1 : a.id = src.id <;> by_cases hb1 : b.id = src.id
      · exact absurd (ha1.trans hb1.symm) hab
      · simp only [if_pos ha1, if_neg hb1]
        have has : a = src := eq_of_mem_of_id_eq hids ha hsrc ha1
        by_cases hb2 : b.id = c.id
        · simp only [if_pos hb2]
          show tp ≠ src.position
          exact Ne.symm hne
        · simp only [if_neg hb2]
          show tp ≠ b.position
          intro hbp
          have hbc : b.id ≠ c.id := hb2
          have hbpar : b.parentId = c.parentId := by
            rw [← hpar, has, hcpar]
          exact hdist b hb c hcm hbc hbpar (by rw [← hbp, hcpos])
      · simp only [if_neg ha1, if_pos hb1]
        have hbs : b = src := eq_of_mem_of_id_eq hids hb hsrc hb1
        by_cases ha2 : a.id = c.id
        · simp only [if_pos ha2]
          show src.position ≠ tp
          exact hne
        · simp only [if_neg ha2]
          show a.position ≠ tp
          intro hap
          have hapar : a.parentId = c.parentId := by
            rw [hpar, hbs, hcpar]
          exact hdist a ha c hcm ha2 hapar (by rw [hap, hcpos])
      · simp only [if_neg ha1, if_neg hb1]
        by_cases ha2 : a.id = c.id <;> by_cases hb2 : b.id = c.id
        · exact absurd (ha2.trans hb2.symm) hab
        · simp only [if_pos ha2, if_neg hb2]
          show src.position ≠ b.position
          have hac : a = c := eq_of_mem_of_id_eq hids ha hcm ha2
          have hbs : src.parentId = b.parentId := by
            rw [← hpar, hac, hcpar]
          exact hdist src hsrc b hb (Ne.symm hb1) hbs
        · simp only [if_neg ha2, if_pos hb2]
          show a.position ≠ src.position
          have hbc : b = c := eq_of_mem_of_id_eq hids hb hcm hb2
          have has : a.parentId = src.parentId := by
            rw [hpar, hbc, hcpar]
          exact hdist a ha src hsrc ha1 has
        · simp only [if_neg ha2, if_neg hb2]
          exact hdist a ha b hb hab hpar

/-- The final state's positions all lie back in `1..8`. -/
theorem allInRange_swap (t : List Row) (src : Row) (conflicting : Option Row)
    (tp : Int) (now : Nat) (hrange : allInRange t) (hsrc : src ∈ t)
    (htp : posInRange tp) :
    allInRange (t.map (swapFn src conflicting tp now)) := by
  intro r' hr'
  obtain ⟨r, hr, rfl⟩ := List.mem_map.mp hr'
  unfold swapFn
  by_cases h1 : r.id = src.id
  · simpa [h1] using htp
  · simp only [if_neg h1]
    cases conflicting with
    | none => exact hrange r hr
    | some c =>
      by_cases h2 : r.id = c.id
      · simpa [if_pos h2] using hrange src hsrc
      · simpa [if_neg h2] using hrange r hr

/-- The final state keeps ids unique. -/
theorem idsUnique_swap (t : List Row) (src : Row) (conflicting : Option Row)
    (tp : Int) (now : Nat) (hids : idsUnique t) :
    idsUnique (t.map (swapFn src conflicting tp now)) := by
  rw [idsUnique, List.map_map]
  have : (Row.id ∘ swapFn src conflicting tp now) = Row.id := by
    funext r
    unfold swapFn
    simp only [Function.comp_def]
    by_cases h1 : r.id = src.id
    · simp [h1]
    · simp only [if_neg h1]
      cases conflicting with
      | none => rfl
      | some c => by_cases h2 : r.id = c.id <;> simp [h2]
  rw [this]; exact hids

/-- Full specification of a successful reorder request: the handler
returns the one-pass swap of the table and reports the source row moved
to the target position. -/
theorem reorderHandler_spec (t : List Row) (srcId : Nat) (tp : Int) (now : Nat)
    (src : Row) (hids : idsUnique t)
    (hfind : findRow t srcId = some src) (htp1 : 1 ≤ tp) (htp8 : tp ≤ 8)
    (hne : src.position ≠ tp) :
    reorderHandler t srcId tp now =
      (t.map (swapFn src (findByParentPos t src.parentId tp) tp now),
        .ok { src with position := tp, updated_at := now }) := by
  obtain ⟨hsrc, hsid⟩ := findRow_eq_some hfind
  have hguard : ¬ (tp < 1 ∨ 8 < tp) := by omega
  have hcne : ∀ c, findByParentPos t src.parentId tp = some c → c.id ≠ src.id := by
    intro c hc
    exact conflicting_id_ne_src hids hsrc hne hc
  rw [reorderHandler, if_neg hguard, hfind]
  simp only [if_neg hne]
  rw [reorderSteps_eq_map t src _ tp now hcne]
  have hswapid : ∀ r : Row,
      (swapFn src (findByParentPos t src.parentId tp) tp now r).id = r.id := by
    intro r
    unfold swapFn
    by_cases h1 : r.id = src.id
    · simp [h1]
    · simp only [if_neg h1]
      cases findByParentPos t src.parentId tp with
      | none => rfl
      | some c => by_cases h2 : r.id = c.id <;> simp [h2]
  have hfr : findRow (t.map (swapFn src (findByParentPos t src.parentId tp) tp now))
      srcId = some (swapFn src (findByParentPos t src.parentId tp) tp now src) := by
    rw [findRow, List.find?_map]
    have : ((fun r : Row => r.id == srcId) ∘
        swapFn src (findByParentPos t src.parentId tp) tp now) =
        fun r : Row => r.id == srcId := by
      funext r
      simp [Function.comp_def, hswapid r]
    rw [this, ← findRow, hfind]
    rfl
  rw [hfr]
  have hsw : swapFn src (findByParentPos t src.parentId tp) tp now src =
      { src with position := tp, updated_at := now } := by
    unfold swapFn
    simp
  rw [hsw]
  rfl

/-- Like `reorderHandler_spec`, restricted to the early-return path:
the source already occupies the target slot. -/
theorem reorderHandler_noop (t : List Row) (srcId : Nat) (tp : Int) (now : Nat)
    (src : Row) (hfind : findRow t srcId = some src) (heq : src.position = tp)
    (h1 : 1 ≤ tp) (h8 : tp ≤ 8) :
    reorderHandler t srcId tp now = (t, .ok src) := by
  have hguard : ¬ (tp < 1 ∨ 8 < tp) := by omega
  rw [reorderHandler, if_neg hguard, hfind]
  simp only [if_pos heq]

/-- **C1.** For every sub-goal (resp. action item) reorder request with a
valid `targetPosition` in `[1,8]` and an existing source row whose
position differs from `targetPosition`, the three-step swap keeps
sibling positions pairwise distinct at every intermediate step — after
step 1 (source at the sentinel `-1`), after step 2 (the former occupant
of the target slot, if any, moved to the source's old position), and
after step 3 — so the `UNIQUE(parent, position)` constraint is never
violated mid-update; on success the source row ends at `targetPosition`
and the former occupant (if any) at the source's old position, with all
other rows untouched, and the action-item handler behaves identically. -/
theorem reorder_three_step_swap_preserves_uniqueness
    (t : List Row) (srcId : Nat) (tp : Int) (now : Nat) (src : Row)
    (hids : idsUnique t) (hdist : siblingsDistinct t) (hrange : allInRange t)
    (hfind : findRow t srcId = some src) (htp1 : 1 ≤ tp) (htp8 : tp ≤ 8)
    (hne : src.position ≠ tp) :
    siblingsDistinct (setPos t srcId (-1) now) ∧
    (∀ c, findByParentPos t src.parentId tp = some c →
      siblingsDistinct (setPos (setPos t srcId (-1) now) c.id src.position now)) ∧
    siblingsDistinct (t.map (swapFn src (findByParentPos t src.parentId tp) tp now)) ∧
    reorderSubGoalHandler t srcId tp now =
      (t.map (swapFn src (findByParentPos t src.parentId tp) tp now),
        .ok { src with position := tp, updated_at := now }) ∧
    reorderActionHandler t srcId tp now = reorderSubGoalHandler t srcId tp now := by
  obtain ⟨hsrc, hsid⟩ := findRow_eq_some hfind
  subst hsid
  refine ⟨?_, ?_, ?_, ?_, rfl⟩
  · exact step1_distinct t src now hdist hrange
  · intro c hc
    exact step2_distinct t src c tp now hids hdist hrange hsrc hne hc
  · exact swap_distinct t src tp now hids hdist hsrc hne
  · exact reorderHandler_spec t src.id tp now src hids hfind htp1 htp8 hne

/-- Witness for C1: a concrete two-row table where moving row 1 onto
row 2's slot swaps the two rows. -/
theorem reorder_three_step_swap_preserves_uniqueness_witness :
    siblingsDistinct (setPos [⟨1, 10, 1, 0⟩, ⟨2, 10, 2, 0⟩] 1 (-1) 5) ∧
    (∀ c, findByParentPos [⟨1, 10, 1, 0⟩, ⟨2, 10, 2, 0⟩] 10 2 = some c →
      siblingsDistinct
        (setPos (setPos [⟨1, 10, 1, 0⟩, ⟨2, 10, 2, 0⟩] 1 (-1) 5) c.id 1 5)) ∧
    siblingsDistinct
      ([⟨1, 10, 1, 0⟩, ⟨2, 10, 2, 0⟩].map
        (swapFn ⟨1, 10, 1, 0⟩
          (findByParentPos [⟨1, 10, 1, 0⟩, ⟨2, 10, 2, 0⟩] 10 2) 2 5)) ∧
    reorderSubGoalHandler [⟨1, 10, 1, 0⟩, ⟨2, 10, 2, 0⟩] 1 2 5 =
      ([⟨1, 10, 1, 0⟩, ⟨2, 10, 2, 0⟩].map
        (swapFn ⟨1, 10, 1, 0⟩
          (findByParentPos [⟨1, 10, 1, 0⟩, ⟨2, 10, 2, 0⟩] 10 2) 2 5),
        .ok ⟨1, 10, 2, 5⟩) ∧
    reorderActionHandler [⟨1, 10, 1, 0⟩, ⟨2, 10, 2, 0⟩] 1 2 5 =
      reorderSubGoalHandler [⟨1, 10, 1, 0⟩, ⟨2, 10, 2, 0⟩] 1 2 5 :=
  reorder_three_step_swap_preserves_uniqueness
    [⟨1, 10, 1, 0⟩, ⟨2, 10, 2, 0⟩] 1 2 5 ⟨1, 10, 1, 0⟩
    (by decide) (by decide) (by decide) rfl (by decide) (by decide) (by decide)

/-- **C9.** Reordering a sub-goal or action item to the position it
already occupies is a pure no-op: the handler returns success with the
existing row and the table — every row, sibling and `updated_at`
timestamp included — is returned unchanged. -/
theorem reorder_same_position_is_noop
    (t : List Row) (srcId : Nat) (tp : Int) (now : Nat) (src : Row)
    (hfind : findRow t srcId = some src) (heq : src.position = tp)
    (h1 : 1 ≤ tp) (h8 : tp ≤ 8) :
    reorderSubGoalHandler t srcId tp now = (t, .ok src) ∧
    reorderActionHandler t srcId tp now = (t, .ok src) :=
  ⟨reorderHandler_noop t srcId tp now src hfind heq h1 h8,
    reorderHandler_noop t srcId tp now src hfind heq h1 h8⟩

/-- Witness for C9: reordering row 1 (already at position 3) to
position 3 leaves the one-row table untouched. -/
theorem reorder_same_position_is_noop_witness :
    reorderSubGoalHandler [⟨1, 10, 3, 0⟩] 1 3 7 = ([⟨1, 10, 3, 0⟩], .ok ⟨1, 10, 3, 0⟩) ∧
    reorderActionHandler [⟨1, 10, 3, 0⟩] 1 3 7 = ([⟨1, 10, 3, 0⟩], .ok ⟨1, 10, 3, 0⟩) :=
  reorder_same_position_is_noop [⟨1, 10, 3, 0⟩] 1 3 7 ⟨1, 10, 3, 0⟩
    rfl rfl (by decide) (by decide)

/-- **C2.** The schema the server executes at startup (`database.ts`,
`CHECK(position >= -99 AND position <= 8)` on both `sub_goals` and
`action_items`) tolerates the transient sentinel `-1` that step 1 of
the reorder assigns to the source row, and in fact every row of the
swap's intermediate state satisfies both tables' checks; the stale
`db/init.sql` copy of the DDL (`CHECK(position >= 1 AND position <= 8)`,
loaded by no code) would have rejected the sentinel. -/
theorem sentinel_satisfies_live_position_checks :
    subGoalsPositionCheck (-1) ∧ actionItemsPositionCheck (-1) ∧
    ¬ initSqlPositionCheck (-1) ∧
    (∀ (t : List Row) (srcId : Nat) (now : Nat), allInRange t →
      ∀ r ∈ setPos t srcId (-1) now,
        subGoalsPositionCheck r.position ∧ actionItemsPositionCheck r.position) := by
  refine ⟨by decide, by decide, by decide, ?_⟩
  intro t srcId now hrange r' hr'
  obtain ⟨r, hr, rfl⟩ := List.mem_map.mp hr'
  by_cases h : r.id = srcId
  · simp only [if_pos h]
    exact ⟨by decide, by decide⟩
  · simp only [if_neg h]
    have h1 := (hrange r hr).1
    have h2 := (hrange r hr).2
    exact ⟨⟨by omega, by omega⟩, ⟨by omega, by omega⟩⟩

/-- Witness for C2: the one-row table at position 1, after step 1 of a
reorder, still satisfies both live checks on every row. -/
theorem sentinel_satisfies_live_position_checks_witness :
    allInRange [⟨1, 10, 1, 0⟩] ∧
    ∀ r ∈ setPos [⟨1, 10, 1, 0⟩] 1 (-1) 5,
      subGoalsPositionCheck r.position ∧ actionItemsPositionCheck r.position :=
  ⟨by decide,
    sentinel_satisfies_live_position_checks.2.2.2 [⟨1, 10, 1, 0⟩] 1 5 (by decide)⟩

/-! ## The create and update handlers

`routes/goals.ts` `POST /:goalId/subgoals` and `routes/subgoals.ts`
`POST /:subgoalId/actions` validate title and position
(`position < 1 || position > 8`) and insert; the database then enforces
`PRIMARY KEY`, `CHECK` and `UNIQUE(parent, position)`, aborting the
statement on violation.  The payload's `position` is an arbitrary JSON
number — the guard does **not** require it to be an integer, and SQLite
stores a fractional value as-is in the INTEGER-affinity column — so the
create route is modelled over rows whose stored position is a rational.

`routes/subgoals.ts` `PUT /:subgoalId` and `routes/actions.ts`
`PUT /:actionId` write the client-supplied `position` straight into the
row with **no range validation**; only the database constraints stand
between the payload and the stored state. -/

/-- A `sub_goals` / `action_items` row as SQLite actually stores it:
the `position` column has INTEGER affinity, but a bound JSON number
that is not losslessly integral (such as `1.5`) is stored as REAL, so
the stored position is modelled as a rational.  (`Row` above, with
integer positions, covers the states the integer-only routes produce.) -/
structure QRow where
  id : Nat
  parentId : Nat
  position : ℚ
  updated_at : Nat
  deriving DecidableEq, Repr

/-- The `CHECK(position >= -99 AND position <= 8)` of `database.ts`, as
SQLite applies it to the stored numeric value (integral or not). -/
def positionCheckQ (p : ℚ) : Prop := -99 ≤ p ∧ p ≤ 8

instance (p : ℚ) : Decidable (positionCheckQ p) := by
  unfold positionCheckQ; infer_instance

/-- `UNIQUE(parent, position)` over stored (rational) positions. -/
def qSiblingsDistinct (t : List QRow) : Prop :=
  ∀ a ∈ t, ∀ b ∈ t, a.id ≠ b.id → a.parentId = b.parentId → a.position ≠ b.position

/-- `id TEXT PRIMARY KEY` over stored rows. -/
def qIdsUnique (t : List QRow) : Prop := (t.map QRow.id).Nodup

/-- Every stored position lies in `[1,8]` (as a rational — fractional
values inside the interval satisfy this). -/
def qAllInRange (t : List QRow) : Prop := ∀ r ∈ t, 1 ≤ r.position ∧ r.position ≤ 8

instance (t : List QRow) : Decidable (qSiblingsDistinct t) := by
  unfold qSiblingsDistinct; infer_instance

instance (t : List QRow) : Decidable (qIdsUnique t) := by
  unfold qIdsUnique; infer_instance

instance (t : List QRow) : Decidable (qAllInRange t) := by
  unfold qAllInRange; infer_instance

/-- What a successful `INSERT` into `sub_goals` / `action_items`
requires: the `CHECK` on the stored position, a fresh primary key, and
`UNIQUE(parent, position)` against the existing rows. -/
def insertAllowed (t : List QRow) (r : QRow) : Prop :=
  positionCheckQ r.position ∧ (∀ b ∈ t, b.id ≠ r.id) ∧
  (∀ b ∈ t, b.parentId = r.parentId → b.position ≠ r.position)

instance (t : List QRow) (r : QRow) : Decidable (insertAllowed t r) := by
  unfold insertAllowed; infer_instance

/-- Outcome of a create request. -/
inductive CreateOutcome where
  | badRequest
  | created (row : QRow)
  | dbError
  deriving DecidableEq, Repr

/-- The create handler shared by `POST /:goalId/subgoals`
(`routes/goals.ts`) and `POST /:subgoalId/actions`
(`routes/subgoals.ts`): reject missing/empty title or missing/zero
position (`!title || !position`), reject `position < 1 || position > 8`
— a test a fractional number such as `3/2` passes — otherwise insert,
the database aborting an insert that would violate a constraint.  Text
columns are omitted from `QRow`; only the title's presence is
modelled. -/
def createChildHandler (t : List QRow) (parent : Nat) (posArg : Option ℚ)
    (title : Option String) (newId : Nat) (now : Nat) : List QRow × CreateOutcome :=
  match title, posArg with
  | none, _ => (t, .badRequest)
  | some _, none => (t, .badRequest)
  | some s, some p =>
    if s = "" then (t, .badRequest)
    else if p = 0 then (t, .badRequest)
    else if p < 1 ∨ 8 < p then (t, .badRequest)
    else
      let r : QRow := { id := newId, parentId := parent, position := p, updated_at := now }
      if insertAllowed t r then (t ++ [r], .created r) else (t, .dbError)

/-- `POST /:goalId/subgoals` over the `sub_goals` table. -/
def createSubGoalHandler (t : List QRow) (goalId : Nat) (posArg : Option ℚ)
    (title : Option String) (newId : Nat) (now : Nat) : List QRow × CreateOutcome :=
  createChildHandler t goalId posArg title newId now

/-- `POST /:subgoalId/actions` over the `action_items` table. -/
def createActionHandler (t : List QRow) (subgoalId : Nat) (posArg : Option ℚ)
    (title : Option String) (newId : Nat) (now : Nat) : List QRow × CreateOutcome :=
  createChildHandler t subgoalId posArg title newId now

/-- The state-wide constraints the database re-checks on every write:
`CHECK` on each position, `UNIQUE(parent, position)`, primary keys. -/
def tableConstraintsOk (t : List Row) : Prop :=
  (∀ r ∈ t, subGoalsPositionCheck r.position) ∧ siblingsDistinct t ∧ idsUnique t

instance (t : List Row) : Decidable (tableConstraintsOk t) := by
  unfold tableConstraintsOk; infer_instance

/-- Outcome of an update request. -/
inductive UpdateOutcome where
  | notFound
  | ok
  | dbError
  deriving DecidableEq, Repr

/-- The update handler shared by `PUT /:subgoalId` (`routes/subgoals.ts`)
and `PUT /:actionId` (`routes/actions.ts`): look the row up by id and
write the payload's `position` with no range validation, the statement
failing (and the state reverting) only if a database constraint is
violated.  The response body (the re-selected row) is not modelled. -/
def updatePositionHandler (t : List Row) (srcId : Nat) (newPos : Int)
    (now : Nat) : List Row × UpdateOutcome :=
  match findRow t srcId with
  | none => (t, .notFound)
  | some _ =>
    let t' := setPos t srcId newPos now
    if tableConstraintsOk t' then (t', .ok) else (t, .dbError)

/-- `PUT /:subgoalId` over the `sub_goals` table. -/
def updateSubGoalHandler (t : List SubGoalRow) (srcId : Nat) (newPos : Int)
    (now : Nat) : List SubGoalRow × UpdateOutcome :=
  updatePositionHandler t srcId newPos now

/-- `PUT /:actionId` over the `action_items` table. -/
def updateActionHandler (t : List ActionRow) (srcId : Nat) (newPos : Int)
    (now : Nat) : List ActionRow × UpdateOutcome :=
  updatePositionHandler t srcId newPos now

/-- The create handler keeps all three table invariants (over the
stored, possibly fractional, positions). -/
theorem createChildHandler_preserves (t : List QRow) (parent : Nat)
    (posArg : Option ℚ) (title : Option String) (newId : Nat) (now : Nat)
    (hids : qIdsUnique t) (hdist : qSiblingsDistinct t) (hrange : qAllInRange t) :
    qIdsUnique (createChildHandler t parent posArg title newId now).1 ∧
    qSiblingsDistinct (createChildHandler t parent posArg title newId now).1 ∧
    qAllInRange (createChildHandler t parent posArg title newId now).1 := by
  cases title with
  | none => exact ⟨hids, hdist, hrange⟩
  | some s =>
    cases posArg with
    | none => exact ⟨hids, hdist, hrange⟩
    | some p =>
      rw [createChildHandler]
      by_cases hs : s = ""
      · rw [if_pos hs]; exact ⟨hids, hdist, hrange⟩
      rw [if_neg hs]
      by_cases hp0 : p = 0
      · rw [if_pos hp0]; exact ⟨hids, hdist, hrange⟩
      rw [if_neg hp0]
      by_cases hpr : p < 1 ∨ 8 < p
      · rw [if_pos hpr]; exact ⟨hids, hdist, hrange⟩
      rw [if_neg hpr]
      by_cases hins : insertAllowed t
          { id := newId, parentId := parent, position := p, updated_at := now }
      · rw [if_pos hins]
        obtain ⟨-, hfresh, huniq⟩ := hins
        refine ⟨?_, ?_, ?_⟩
        · rw [qIdsUnique, List.map_append, List.nodup_append]
          refine ⟨hids, List.nodup_singleton _, ?_⟩
          intro i hi hi'
          obtain ⟨b, hb, rfl⟩ := List.mem_map.mp hi
          simp only [List.map_cons, List.map_nil, List.mem_singleton] at hi'
          exact hfresh b hb hi'
        · intro a ha b hb hab hpar
          rcases List.mem_append.mp ha with ha' | ha' <;>
            rcases List.mem_append.mp hb with hb' | hb'
          · exact hdist a ha' b hb' hab hpar
          · rw [List.mem_singleton] at hb'
            subst hb'
            exact huniq a ha' hpar
          · rw [List.mem_singleton] at ha'
            subst ha'
            intro hpos
            exact huniq b hb' hpar.symm hpos.symm
          · rw [List.mem_singleton] at ha' hb'
            subst ha'; subst hb'
            exact absurd rfl hab
        · intro r hr
          rcases List.mem_append.mp hr with hr' | hr'
          · exact hrange r hr'
          · rw [List.mem_singleton] at hr'
            subst hr'
            obtain ⟨hnl, hng⟩ := not_or.mp hpr
            exact ⟨not_lt.mp hnl, not_lt.mp hng⟩
      · rw [if_neg hins]; exact ⟨hids, hdist, hrange⟩

/-- Every path of the reorder handler keeps all three table invariants. -/
theorem reorderHandler_preserves (t : List Row) (srcId : Nat) (tp : Int)
    (now : Nat)
    (hids : idsUnique t) (hdist : siblingsDistinct t) (hrange : allInRange t) :
    idsUnique (reorderHandler t srcId tp now).1 ∧
    siblingsDistinct (reorderHandler t srcId tp now).1 ∧
    allInRange (reorderHandler t srcId tp now).1 := by
  by_cases hguard : tp < 1 ∨ 8 < tp
  · rw [reorderHandler, if_pos hguard]; exact ⟨hids, hdist, hrange⟩
  have h1 : 1 ≤ tp := by omega
  have h8 : tp ≤ 8 := by omega
  cases hfind : findRow t srcId with
  | none => rw [reorderHandler, if_neg hguard, hfind]; exact ⟨hids, hdist, hrange⟩
  | some src =>
    by_cases heq : src.position = tp
    · rw [reorderHandler_noop t srcId tp now src hfind heq h1 h8]
      exact ⟨hids, hdist, hrange⟩
    · rw [reorderHandler_spec t srcId tp now src hids hfind h1 h8 heq]
      obtain ⟨hsrc, hsid⟩ := findRow_eq_some hfind
      exact ⟨idsUnique_swap t src _ tp now hids,
        swap_distinct t src tp now hids hdist hsrc heq,
        allInRange_swap t src _ tp now hrange hsrc ⟨h1, h8⟩⟩

/-- Pairwise-distinct integer positions in `1..8` bound any parent's
family at 8 rows. -/
theorem siblings_count_le_eight (t : List Row) (parent : Nat)
    (hids : idsUnique t) (hdist : siblingsDistinct t) (hrange : allInRange t) :
    (t.filter fun r => r.parentId == parent).length ≤ 8 := by
  have hidpw : t.Pairwise fun a b => a.id ≠ b.id := List.pairwise_map.mp hids
  have hpospw : (t.filter fun r => r.parentId == parent).Pairwise
      fun a b => a.position ≠ b.position := by
    have hsub : (t.filter fun r => r.parentId == parent).Pairwise
        fun a b => a.id ≠ b.id := hidpw.sublist (List.filter_sublist t)
    refine hsub.imp_of_mem ?_
    intro a b ha hb hne
    have haf := List.mem_filter.mp ha
    have hbf := List.mem_filter.mp hb
    have hap : a.parentId = parent := by simpa using haf.2
    have hbp : b.parentId = parent := by simpa using hbf.2
    exact hdist a haf.1 b hbf.1 hne (hap.trans hbp.symm)
  have hnodup : ((t.filter fun r => r.parentId == parent).map Row.position).Nodup :=
    List.pairwise_map.mpr hpospw
  have hsubset : ((t.filter fun r => r.parentId == parent).map Row.position).toFinset ⊆
      Finset.Icc (1 : Int) 8 := by
    intro x hx
    obtain ⟨r, hr, rfl⟩ := List.mem_map.mp (List.mem_toFinset.mp hx)
    have hrr := (List.mem_filter.mp hr).1
    have := hrange r hrr
    exact Finset.mem_Icc.mpr ⟨this.1, this.2⟩
  calc (t.filter fun r => r.parentId == parent).length
      = ((t.filter fun r => r.parentId == parent).map Row.position).length :=
        (List.length_map _ _).symm
    _ = ((t.filter fun r => r.parentId == parent).map Row.position).toFinset.card :=
        (List.toFinset_card_of_nodup hnodup).symm
    _ ≤ (Finset.Icc (1 : Int) 8).card := Finset.card_le_card hsubset
    _ = 8 := by decide

/-- Pairwise-distinct integral rationals in `[1,8]` number at most 8. -/
theorem nodup_int_positions_le_eight (l : List ℚ) (hnodup : l.Nodup)
    (hrange : ∀ q ∈ l, 1 ≤ q ∧ q ≤ 8) (hint : ∀ q ∈ l, ∃ n : ℤ, q = (n : ℚ)) :
    l.length ≤ 8 := by
  have hsub : l.toFinset ⊆ (Finset.Icc (1 : ℤ) 8).image fun n : ℤ => (n : ℚ) := by
    intro x hx
    have hxl := List.mem_toFinset.mp hx
    obtain ⟨n, rfl⟩ := hint x hxl
    have hr := hrange _ hxl
    refine Finset.mem_image.mpr ⟨n, Finset.mem_Icc.mpr ⟨?_, ?_⟩, rfl⟩
    · exact_mod_cast hr.1
    · exact_mod_cast hr.2
  calc l.length = l.toFinset.card := (List.toFinset_card_of_nodup hnodup).symm
    _ ≤ ((Finset.Icc (1 : ℤ) 8).image fun n : ℤ => (n : ℚ)).card :=
        Finset.card_le_card hsub
    _ ≤ (Finset.Icc (1 : ℤ) 8).card := Finset.card_image_le
    _ = 8 := by decide

/-- Within a parent, pairwise-distinct stored positions in `[1,8]`
bound the family at 8 rows — provided the stored positions are all
integral.  (The bound genuinely needs that proviso: the create guard
admits fractional positions, see the C3 counterexample.) -/
theorem qSiblings_count_le_eight (t : List QRow) (parent : Nat)
    (hids : qIdsUnique t) (hdist : qSiblingsDistinct t) (hrange : qAllInRange t)
    (hint : ∀ r ∈ t, ∃ n : ℤ, r.position = (n : ℚ)) :
    (t.filter fun r => r.parentId == parent).length ≤ 8 := by
  have hidpw : t.Pairwise fun a b => a.id ≠ b.id := List.pairwise_map.mp hids
  have hpospw : (t.filter fun r => r.parentId == parent).Pairwise
      fun a b => a.position ≠ b.position := by
    have hsub : (t.filter fun r => r.parentId == parent).Pairwise
        fun a b => a.id ≠ b.id := hidpw.sublist (List.filter_sublist t)
    refine hsub.imp_of_mem ?_
    intro a b ha hb hne
    have haf := List.mem_filter.mp ha
    have hbf := List.mem_filter.mp hb
    have hap : a.parentId = parent := by simpa using haf.2
    have hbp : b.parentId = parent := by simpa using hbf.2
    exact hdist a haf.1 b hbf.1 hne (hap.trans hbp.symm)
  have hnodup : ((t.filter fun r => r.parentId == parent).map QRow.position).Nodup :=
    List.pairwise_map.mpr hpospw
  have hlen : (t.filter fun r => r.parentId == parent).length =
      ((t.filter fun r => r.parentId == parent).map QRow.position).length :=
    (List.length_map _ _).symm
  rw [hlen]
  refine nodup_int_positions_le_eight _ hnodup ?_ ?_
  · intro q hq
    obtain ⟨r, hr, rfl⟩ := List.mem_map.mp hq
    exact hrange r (List.mem_filter.mp hr).1
  · intro q hq
    obtain ⟨r, hr, rfl⟩ := List.mem_map.mp hq
    exact hint r (List.mem_filter.mp hr).1

/-- **C3, counterexample.** Two API operations break the claimed
invariant.  First, `PUT /:subgoalId` applies the payload's position
with no range validation, so updating the sole sub-goal (at position 1)
to position 0 succeeds — the widened database check `-99 ≤ p ≤ 8`
accepts 0 — and leaves a sub-goal outside `[1,8]`.  Second, the create
route's `position < 1 || position > 8` guard passes the fractional
position `3/2`, which SQLite stores and `UNIQUE` accepts, so on a goal
whose 8 slots are all taken a ninth create still succeeds: a goal with
nine sub-goals, created by the create route alone. -/
theorem update_route_breaks_position_range :
    updateSubGoalHandler [⟨1, 10, 1, 0⟩] 1 0 5 = ([⟨1, 10, 0, 5⟩], .ok) ∧
    ¬ allInRange (updateSubGoalHandler [⟨1, 10, 1, 0⟩] 1 0 5).1 ∧
    createSubGoalHandler
      [⟨1, 10, 1, 0⟩, ⟨2, 10, 2, 0⟩, ⟨3, 10, 3, 0⟩, ⟨4, 10, 4, 0⟩,
        ⟨5, 10, 5, 0⟩, ⟨6, 10, 6, 0⟩, ⟨7, 10, 7, 0⟩, ⟨8, 10, 8, 0⟩]
      10 (some (3 / 2)) (some "x") 9 5 =
      ([⟨1, 10, 1, 0⟩, ⟨2, 10, 2, 0⟩, ⟨3, 10, 3, 0⟩, ⟨4, 10, 4, 0⟩,
        ⟨5, 10, 5, 0⟩, ⟨6, 10, 6, 0⟩, ⟨7, 10, 7, 0⟩, ⟨8, 10, 8, 0⟩,
        ⟨9, 10, 3 / 2, 5⟩], .created ⟨9, 10, 3 / 2, 5⟩) ∧
    (createSubGoalHandler
      [⟨1, 10, 1, 0⟩, ⟨2, 10, 2, 0⟩, ⟨3, 10, 3, 0⟩, ⟨4, 10, 4, 0⟩,
        ⟨5, 10, 5, 0⟩, ⟨6, 10, 6, 0⟩, ⟨7, 10, 7, 0⟩, ⟨8, 10, 8, 0⟩]
      10 (some (3 / 2)) (some "x") 9 5).1.length = 9 := by
  have hins : insertAllowed
      [⟨1, 10, 1, 0⟩, ⟨2, 10, 2, 0⟩, ⟨3, 10, 3, 0⟩, ⟨4, 10, 4, 0⟩,
        ⟨5, 10, 5, 0⟩, ⟨6, 10, 6, 0⟩, ⟨7, 10, 7, 0⟩, ⟨8, 10, 8, 0⟩]
      ⟨9, 10, 3 / 2, 5⟩ := by
    refine ⟨⟨by norm_num, by norm_num⟩, ?_, ?_⟩
    · intro b hb
      fin_cases hb <;> decide
    · intro b hb hpar
      fin_cases hb <;> norm_num
  have hcreate : createSubGoalHandler
      [⟨1, 10, 1, 0⟩, ⟨2, 10, 2, 0⟩, ⟨3, 10, 3, 0⟩, ⟨4, 10, 4, 0⟩,
        ⟨5, 10, 5, 0⟩, ⟨6, 10, 6, 0⟩, ⟨7, 10, 7, 0⟩, ⟨8, 10, 8, 0⟩]
      10 (some (3 / 2)) (some "x") 9 5 =
      ([⟨1, 10, 1, 0⟩, ⟨2, 10, 2, 0⟩, ⟨3, 10, 3, 0⟩, ⟨4, 10, 4, 0⟩,
        ⟨5, 10, 5, 0⟩, ⟨6, 10, 6, 0⟩, ⟨7, 10, 7, 0⟩, ⟨8, 10, 8, 0⟩,
        ⟨9, 10, 3 / 2, 5⟩], .created ⟨9, 10, 3 / 2, 5⟩) := by
    show createChildHandler _ 10 (some (3 / 2)) (some "x") 9 5 = _
    simp only [createChildHandler]
    rw [if_neg (by decide : ¬ ("x" = "")),
      if_neg (by norm_num : ¬ ((3 / 2 : ℚ) = 0)),
      if_neg (by norm_num : ¬ ((3 / 2 : ℚ) < 1 ∨ 8 < (3 / 2 : ℚ))),
      if_pos hins]
    rfl
  refine ⟨by decide, by decide, hcreate, ?_⟩
  rw [hcreate]
  rfl

/-- **C3, amended.** Create requests with a position outside `[1,8]`
are rejected with the state unchanged, and the create and reorder
operations preserve pairwise-distinct sibling positions lying in
`[1,8]`; the at-most-8-children bound (hence at most 64 actions per
goal), however, holds only when the stored positions are all integral —
the create guard `position < 1 || position > 8` admits fractional
positions such as `3/2`, which the database stores, so a goal can gain
a ninth sub-goal through the create route alone — and the `PUT` update
routes accept an unvalidated position outright: see
`update_route_breaks_position_range` for both. -/
theorem create_and_reorder_preserve_grid_invariant
    (tq : List QRow) (t : List Row) (parent srcId newId : Nat)
    (posArg : Option ℚ) (tp : Int) (title : Option String) (now : Nat)
    (hqids : qIdsUnique tq) (hqdist : qSiblingsDistinct tq)
    (hqrange : qAllInRange tq)
    (hids : idsUnique t) (hdist : siblingsDistinct t) (hrange : allInRange t) :
    (∀ p, posArg = some p → p < 1 ∨ 8 < p →
      createSubGoalHandler tq parent posArg title newId now = (tq, .badRequest) ∧
      createActionHandler tq parent posArg title newId now = (tq, .badRequest)) ∧
    (qIdsUnique (createSubGoalHandler tq parent posArg title newId now).1 ∧
      qSiblingsDistinct (createSubGoalHandler tq parent posArg title newId now).1 ∧
      qAllInRange (createSubGoalHandler tq parent posArg title newId now).1) ∧
    (idsUnique (reorderSubGoalHandler t srcId tp now).1 ∧
      siblingsDistinct (reorderSubGoalHandler t srcId tp now).1 ∧
      allInRange (reorderSubGoalHandler t srcId tp now).1) ∧
    createActionHandler tq parent posArg title newId now =
      createSubGoalHandler tq parent posArg title newId now ∧
    reorderActionHandler t srcId tp now = reorderSubGoalHandler t srcId tp now ∧
    ((∀ r ∈ tq, ∃ n : ℤ, r.position = (n : ℚ)) →
      (tq.filter fun r => r.parentId == parent).length ≤ 8) ∧
    (t.filter fun r => r.parentId == parent).length ≤ 8 := by
  refine ⟨?_, ?_, ?_, rfl, rfl,
    fun hint => qSiblings_count_le_eight tq parent hqids hqdist hqrange hint,
    siblings_count_le_eight t parent hids hdist hrange⟩
  · rintro p rfl hp
    cases title with
    | none => exact ⟨rfl, rfl⟩
    | some s =>
      have hout : createChildHandler tq parent (some p) (some s) newId now =
          (tq, .badRequest) := by
        rw [createChildHandler]
        by_cases hs : s = ""
        · rw [if_pos hs]
        · rw [if_neg hs]
          by_cases hp0 : p = 0
          · rw [if_pos hp0]
          · rw [if_neg hp0, if_pos hp]
      exact ⟨hout, hout⟩
  · exact createChildHandler_preserves tq parent posArg title newId now
      hqids hqdist hqrange
  · exact reorderHandler_preserves t srcId tp now hids hdist hrange

/-- Witness for C3: on a one-row table, an out-of-range create is
rejected unchanged, an in-range create and a reorder keep the
invariant, and the sibling counts are bounded (the stored positions
here being integral). -/
theorem create_and_reorder_preserve_grid_invariant_witness :
    createSubGoalHandler [⟨1, 10, 1, 0⟩] 10 (some 9) (some "x") 2 5 =
      ([⟨1, 10, 1, 0⟩], .badRequest) ∧
    qIdsUnique (createSubGoalHandler [⟨1, 10, 1, 0⟩] 10 (some 2) (some "x") 2 5).1 ∧
    qSiblingsDistinct
      (createSubGoalHandler [⟨1, 10, 1, 0⟩] 10 (some 2) (some "x") 2 5).1 ∧
    qAllInRange (createSubGoalHandler [⟨1, 10, 1, 0⟩] 10 (some 2) (some "x") 2 5).1 ∧
    allInRange (reorderSubGoalHandler [⟨1, 10, 1, 0⟩] 1 2 5).1 ∧
    ([(⟨1, 10, 1, 0⟩ : QRow)].filter fun r => r.parentId == 10).length ≤ 8 ∧
    ([(⟨1, 10, 1, 0⟩ : Row)].filter fun r => r.parentId == 10).length ≤ 8 := by
  have h1 := create_and_reorder_preserve_grid_invariant
    [⟨1, 10, 1, 0⟩] [⟨1, 10, 1, 0⟩] 10 1 2 (some 9) 2 (some "x") 5
    (by decide) (by decide) (by decide) (by decide) (by decide) (by decide)
  have h2 := create_and_reorder_preserve_grid_invariant
    [⟨1, 10, 1, 0⟩] [⟨1, 10, 1, 0⟩] 10 1 2 (some 2) 2 (some "x") 5
    (by decide) (by decide) (by decide) (by decide) (by decide) (by decide)
  refine ⟨(h1.1 9 rfl (by norm_num)).1, h2.2.1.1, h2.2.1.2.1, h2.2.1.2.2,
    h2.2.2.1.2.2, h2.2.2.2.2.2.1 ?_, h2.2.2.2.2.2.2⟩
  intro r hr
  rcases List.mem_singleton.mp hr with rfl
  exact ⟨1, by norm_num⟩

/-! ## Cascade deletes

`database.ts` SCHEMA declares `ON DELETE CASCADE` on
`sub_goals.primary_goal_id → primary_goals`,
`action_items.sub_goal_id → sub_goals` and
`activity_logs.action_item_id → action_items`, and switches
`PRAGMA foreign_keys = ON`, so a `DELETE` removes the whole subtree.
The delete handlers (`routes/goals.ts` `DELETE /:goalId`,
`routes/subgoals.ts` `DELETE /:subgoalId`, `routes/actions.ts`
`DELETE /:actionId`) run a bare `DELETE ... WHERE id = ?` and 404 when
`changes === 0`. -/

/-- Row of the `primary_goals` table (text columns omitted). -/
structure GoalRow where
  id : Nat
  user_id : Option Nat
  updated_at : Nat
  deriving DecidableEq, Repr

/-- Row of the `activity_logs` table (payload columns omitted). -/
structure LogRow where
  id : Nat
  action_item_id : Nat
  deriving DecidableEq, Repr

/-- The four related tables the cascade walks. -/
structure DBState where
  goals : List GoalRow
  subGoals : List SubGoalRow
  actions : List ActionRow
  logs : List LogRow
  deriving DecidableEq, Repr

/-- `DELETE FROM primary_goals WHERE id = ?` with the declared cascades:
the goal's sub-goals, their action items and those items' logs go too. -/
def deleteGoalCascade (s : DBState) (gid : Nat) : DBState :=
  let removedSubIds := (s.subGoals.filter fun sg => sg.parentId == gid).map Row.id
  let removedActionIds :=
    (s.actions.filter fun a => removedSubIds.contains a.parentId).map Row.id
  { goals := s.goals.filter fun g => g.id != gid
    subGoals := s.subGoals.filter fun sg => sg.parentId != gid
    actions := s.actions.filter fun a => !(removedSubIds.contains a.parentId)
    logs := s.logs.filter fun l => !(removedActionIds.contains l.action_item_id) }

/-- `DELETE FROM sub_goals WHERE id = ?` with the declared cascades. -/
def deleteSubGoalCascade (s : DBState) (sgid : Nat) : DBState :=
  let removedActionIds := (s.actions.filter fun a => a.parentId == sgid).map Row.id
  { s with
    subGoals := s.subGoals.filter fun sg => sg.id != sgid
    actions := s.actions.filter fun a => a.parentId != sgid
    logs := s.logs.filter fun l => !(removedActionIds.contains l.action_item_id) }

/-- `DELETE FROM action_items WHERE id = ?` with the declared cascade. -/
def deleteActionCascade (s : DBState) (aid : Nat) : DBState :=
  { s with
    actions := s.actions.filter fun a => a.id != aid
    logs := s.logs.filter fun l => l.action_item_id != aid }

/-- Outcome of a delete request. -/
inductive DeleteOutcome where
  | notFound
  | ok
  deriving DecidableEq, Repr

/-- `DELETE /:goalId` (`routes/goals.ts`). -/
def deleteGoalHandler (s : DBState) (gid : Nat) : DBState × DeleteOutcome :=
  if s.goals.any fun g => g.id == gid then (deleteGoalCascade s gid, .ok)
  else (s, .notFound)

/-- `DELETE /:subgoalId` (`routes/subgoals.ts`). -/
def deleteSubGoalHandler (s : DBState) (sgid : Nat) : DBState × DeleteOutcome :=
  if s.subGoals.any fun sg => sg.id == sgid then (deleteSubGoalCascade s sgid, .ok)
  else (s, .notFound)

/-- `DELETE /:actionId` (`routes/actions.ts`). -/
def deleteActionHandler (s : DBState) (aid : Nat) : DBState × DeleteOutcome :=
  if s.actions.any fun a => a.id == aid then (deleteActionCascade s aid, .ok)
  else (s, .notFound)

/-- **C5.** Deleting a parent cascades to all descendants and their
logs: after a successful `DELETE` of a primary goal, no sub-goals
referencing it, no action items under those sub-goals, and no activity
logs under those action items remain; likewise deleting a sub-goal
removes its action items and their logs, and deleting an action item
removes its logs. -/
theorem cascade_delete_removes_descendants (s : DBState) (gid sgid aid : Nat) :
    ((deleteGoalHandler s gid).2 = .ok →
      (∀ g ∈ (deleteGoalHandler s gid).1.goals, g.id ≠ gid) ∧
      (∀ sg ∈ (deleteGoalHandler s gid).1.subGoals, sg.parentId ≠ gid) ∧
      (∀ a ∈ (deleteGoalHandler s gid).1.actions,
        ∀ sg ∈ s.subGoals, sg.parentId = gid → a.parentId ≠ sg.id) ∧
      (∀ l ∈ (deleteGoalHandler s gid).1.logs,
        ∀ a ∈ s.actions, ∀ sg ∈ s.subGoals, sg.parentId = gid →
          a.parentId = sg.id → l.action_item_id ≠ a.id)) ∧
    ((deleteSubGoalHandler s sgid).2 = .ok →
      (∀ sg ∈ (deleteSubGoalHandler s sgid).1.subGoals, sg.id ≠ sgid) ∧
      (∀ a ∈ (deleteSubGoalHandler s sgid).1.actions, a.parentId ≠ sgid) ∧
      (∀ l ∈ (deleteSubGoalHandler s sgid).1.logs,
        ∀ a ∈ s.actions, a.parentId = sgid → l.action_item_id ≠ a.id)) ∧
    ((deleteActionHandler s aid).2 = .ok →
      (∀ a ∈ (deleteActionHandler s aid).1.actions, a.id ≠ aid) ∧
      (∀ l ∈ (deleteActionHandler s aid).1.logs, l.action_item_id ≠ aid)) := by
  refine ⟨?_, ?_, ?_⟩
  · intro hok
    by_cases hany : s.goals.any fun g => g.id == gid
    case neg =>
      rw [deleteGoalHandler, if_neg hany] at hok
      exact absurd hok (by simp)
    rw [deleteGoalHandler, if_pos hany]
    refine ⟨?_, ?_, ?_, ?_⟩
    · intro g hg
      have := (List.mem_filter.mp hg).2
      simpa using this
    · intro sg hsg
      have := (List.mem_filter.mp hsg).2
      simpa using this
    · intro a ha sg hsg hsgp hap
      have h2 : (((s.subGoals.filter fun sg => sg.parentId == gid).map Row.id).contains
          a.parentId) = false := by
        have := (List.mem_filter.mp ha).2
        rwa [Bool.not_eq_true'] at this
      have h3 : (((s.subGoals.filter fun sg => sg.parentId == gid).map Row.id).contains
          a.parentId) = true := by
        refine List.elem_eq_true_of_mem ?_
        rw [hap]
        exact List.mem_map_of_mem _ (List.mem_filter.mpr ⟨hsg, by simp [hsgp]⟩)
      exact absurd (h2.symm.trans h3) (by decide)
    · intro l hl a ha sg hsg hsgp hap hla
      have h2 : (((s.actions.filter fun a =>
          ((s.subGoals.filter fun sg => sg.parentId == gid).map Row.id).contains
            a.parentId).map Row.id).contains l.action_item_id) = false := by
        have := (List.mem_filter.mp hl).2
        rwa [Bool.not_eq_true'] at this
      have hamem : a ∈ s.actions.filter fun a =>
          ((s.subGoals.filter fun sg => sg.parentId == gid).map Row.id).contains
            a.parentId := by
        refine List.mem_filter.mpr ⟨ha, ?_⟩
        refine List.elem_eq_true_of_mem ?_
        rw [hap]
        exact List.mem_map_of_mem _ (List.mem_filter.mpr ⟨hsg, by simp [hsgp]⟩)
      have h3 : (((s.actions.filter fun a =>
          ((s.subGoals.filter fun sg => sg.parentId == gid).map Row.id).contains
            a.parentId).map Row.id).contains l.action_item_id) = true := by
        refine List.elem_eq_true_of_mem ?_
        rw [hla]
        exact List.mem_map_of_mem _ hamem
      exact absurd (h2.symm.trans h3) (by decide)
  · intro hok
    by_cases hany : s.subGoals.any fun sg => sg.id == sgid
    case neg =>
      rw [deleteSubGoalHandler, if_neg hany] at hok
      exact absurd hok (by simp)
    rw [deleteSubGoalHandler, if_pos hany]
    refine ⟨?_, ?_, ?_⟩
    · intro sg hsg
      have := (List.mem_filter.mp hsg).2
      simpa using this
    · intro a ha
      have := (List.mem_filter.mp ha).2
      simpa using this
    · intro l hl a ha hap hla
      have h2 : (((s.actions.filter fun a => a.parentId == sgid).map Row.id).contains
          l.action_item_id) = false := by
        have := (List.mem_filter.mp hl).2
        rwa [Bool.not_eq_true'] at this
      have h3 : (((s.actions.filter fun a => a.parentId == sgid).map Row.id).contains
          l.action_item_id) = true := by
        refine List.elem_eq_true_of_mem ?_
        rw [hla]
        exact List.mem_map_of_mem _ (List.mem_filter.mpr ⟨ha, by simp [hap]⟩)
      exact absurd (h2.symm.trans h3) (by decide)
  · intro hok
    by_cases hany : s.actions.any fun a => a.id == aid
    case neg =>
      rw [deleteActionHandler, if_neg hany] at hok
      exact absurd hok (by simp)
    rw [deleteActionHandler, if_pos hany]
    refine ⟨?_, ?_⟩
    · intro a ha
      have := (List.mem_filter.mp ha).2
      simpa using this
    · intro l hl
      have := (List.mem_filter.mp hl).2
      simpa using this

/-- Witness for C5: a one-goal, one-sub-goal, one-action, one-log state;
all three deletes succeed and the respective descendants vanish. -/
theorem cascade_delete_removes_descendants_witness :
    (∀ sg ∈ (deleteGoalHandler ⟨[⟨1, some 1, 0⟩], [⟨2, 1, 1, 0⟩], [⟨3, 2, 1, 0⟩], [⟨4, 3⟩]⟩ 1).1.subGoals,
      sg.parentId ≠ 1) ∧
    (∀ a ∈ (deleteSubGoalHandler ⟨[⟨1, some 1, 0⟩], [⟨2, 1, 1, 0⟩], [⟨3, 2, 1, 0⟩], [⟨4, 3⟩]⟩ 2).1.actions,
      a.parentId ≠ 2) ∧
    (∀ l ∈ (deleteActionHandler ⟨[⟨1, some 1, 0⟩], [⟨2, 1, 1, 0⟩], [⟨3, 2, 1, 0⟩], [⟨4, 3⟩]⟩ 3).1.logs,
      l.action_item_id ≠ 3) := by
  have h := cascade_delete_removes_descendants
    ⟨[⟨1, some 1, 0⟩], [⟨2, 1, 1, 0⟩], [⟨3, 2, 1, 0⟩], [⟨4, 3⟩]⟩ 1 2 3
  exact ⟨(h.1 (by decide)).2.1, (h.2.1 (by decide)).2.1, (h.2.2 (by decide)).2⟩

/-! ## User scoping of the goal routes

`routes/goals.ts`: `GET /` and `GET /:goalId` filter on
`user_id = req.user.id`; `GET /:goalId/tree`, `PUT /:goalId` and
`DELETE /:goalId` look the goal up by `id` alone and never read
`req.user` (all five sit behind `requireAuth`, so a user id is always
present). -/

/-- `GET /` (`routes/goals.ts`):
`SELECT * FROM primary_goals WHERE user_id = ?`. -/
def listGoalsHandler (s : DBState) (uid : Nat) : List GoalRow :=
  s.goals.filter fun g => g.user_id == some uid

/-- `GET /:goalId` (`routes/goals.ts`):
`SELECT * FROM primary_goals WHERE id = ? AND user_id = ?` (the
sub-goal/action tree attached to the response is not modelled). -/
def getGoalHandler (s : DBState) (uid : Nat) (gid : Nat) : Option GoalRow :=
  s.goals.find? fun g => g.id == gid && g.user_id == some uid

/-- `GET /:goalId/tree` (`routes/goals.ts`):
`SELECT * FROM primary_goals WHERE id = ?` — the requesting user's id
is never consulted. -/
def getGoalTreeHandler (s : DBState) (_uid : Nat) (gid : Nat) : Option GoalRow :=
  s.goals.find? fun g => g.id == gid

/-- `PUT /:goalId` (`routes/goals.ts`): looks the goal up by id only and
rewrites its columns (only `updated_at` is modelled); the requesting
user's id is never consulted. -/
def putGoalHandler (s : DBState) (_uid : Nat) (gid : Nat) (now : Nat) :
    DBState × UpdateOutcome :=
  match s.goals.find? fun g => g.id == gid with
  | none => (s, .notFound)
  | some _ =>
    ({ s with goals := s.goals.map fun g =>
        if g.id = gid then { g with updated_at := now } else g }, .ok)

/-- `DELETE /:goalId` as routed: `requireAuth` sets `req.user`, but the
handler (`deleteGoalHandler`) never reads it. -/
def deleteGoalRoute (s : DBState) (_uid : Nat) (gid : Nat) :
    DBState × DeleteOutcome :=
  deleteGoalHandler s gid

/-- **C7, counterexample.** Isolation does not hold on every goal
access: `GET /:goalId/tree`, requested by user 2, returns user 1's goal
row in full. -/
theorem tree_route_returns_other_users_goal :
    getGoalTreeHandler ⟨[⟨1, some 1, 0⟩], [], [], []⟩ 2 1 = some ⟨1, some 1, 0⟩ ∧
    (⟨1, some 1, 0⟩ : GoalRow).user_id ≠ some 2 := by
  decide

/-- **C7, amended.** The `WHERE user_id = ?` clause scopes exactly two
of the goal routes: `GET /` returns only the requesting user's rows and
`GET /:goalId` only a row owned by the requester; `GET /:goalId/tree`,
`PUT /:goalId` and `DELETE /:goalId` select by id alone and behave
identically whichever authenticated user issues them, so any user can
read, update or delete any goal by id. -/
theorem goal_routes_user_scoping (s : DBState) (uid uid' gid now : Nat) :
    (∀ g ∈ listGoalsHandler s uid, g.user_id = some uid) ∧
    (∀ g, getGoalHandler s uid gid = some g → g.user_id = some uid ∧ g.id = gid) ∧
    getGoalTreeHandler s uid gid = getGoalTreeHandler s uid' gid ∧
    putGoalHandler s uid gid now = putGoalHandler s uid' gid now ∧
    deleteGoalRoute s uid gid = deleteGoalRoute s uid' gid := by
  refine ⟨?_, ?_, rfl, rfl, rfl⟩
  · intro g hg
    have := (List.mem_filter.mp hg).2
    simpa using this
  · intro g hg
    have := List.find?_some hg
    simp only [Bool.and_eq_true, beq_iff_eq] at this
    exact ⟨this.2, this.1⟩

/-- Witness for C7's amended claim: on a one-goal state owned by user 1,
the scoped lookup run by user 1 returns that goal. -/
theorem goal_routes_user_scoping_witness :
    (∀ g ∈ listGoalsHandler ⟨[⟨1, some 1, 0⟩], [], [], []⟩ 1, g.user_id = some 1) ∧
    ((⟨1, some 1, 0⟩ : GoalRow).user_id = some 1 ∧ (⟨1, some 1, 0⟩ : GoalRow).id = 1) := by
  have h := goal_routes_user_scoping ⟨[⟨1, some 1, 0⟩], [], [], []⟩ 1 2 1 5
  exact ⟨h.1, h.2.1 ⟨1, some 1, 0⟩ (by decide)⟩

/-! ## The import position placement

`routes/goals.ts` `POST /import` (`runImport`, inside one
`db.transaction`): for each imported goal it walks the incoming
sub-goals, clamping each incoming position with `clampPosition`,
falling back to the lowest free position `1..8` when the candidate is
missing or already taken, skipping the row when no position results,
and inserting otherwise; the identical logic then places each sub-goal's
actions.  Incoming JSON numbers are modelled as rationals (`Number()`
of a non-numeric value is `NaN`, modelled as `none`). -/

/-- `clampPosition` (`routes/goals.ts`): keep a finite number in
`[1,8]`, return null otherwise. -/
def clampPosition (value : Option ℚ) : Option ℚ :=
  match value with
  | none => none
  | some num => if 1 ≤ num ∧ num ≤ 8 then some num else none

/-- The fallback loop `for (let pos = 1; pos <= 8; pos += 1)`: the first
position of `1..8` not yet used, if any. -/
def firstFree (used : List ℚ) : Option ℚ :=
  ([1, 2, 3, 4, 5, 6, 7, 8] : List ℚ).find? fun p => !(used.contains p)

/-- The placement block of `runImport`: clamp the candidate; when it is
null or taken, run the fallback loop — which leaves the value unchanged
when all of `1..8` are used. -/
def resolvePosition (used : List ℚ) (cand : Option ℚ) : Option ℚ :=
  match clampPosition cand with
  | some p =>
    if used.contains p then
      match firstFree used with
      | some f => some f
      | none => some p
    else some p
  | none => firstFree used

/-- The per-parent placement loop of `runImport`: on success, the
inserted positions (in order), the inserted count and the skipped count;
`Except.error` models the `UNIQUE(parent, position)` violation thrown by
the insert, which aborts the surrounding `db.transaction`. -/
def runPlacement : List (Option ℚ) → List ℚ → Nat → Nat →
    Except Unit (List ℚ × Nat × Nat)
  | [], used, inserted, skipped => .ok (used, inserted, skipped)
  | cand :: rest, used, inserted, skipped =>
    match resolvePosition used cand with
    | none => runPlacement rest used inserted (skipped + 1)
    | some q =>
      if used.contains q then .error ()
      else runPlacement rest (used ++ [q]) (inserted + 1) skipped

theorem clampPosition_range {v : Option ℚ} {p : ℚ}
    (h : clampPosition v = some p) : 1 ≤ p ∧ p ≤ 8 := by
  cases v with
  | none => exact absurd h (by simp [clampPosition])
  | some num =>
    rw [clampPosition] at h
    by_cases hr : 1 ≤ num ∧ num ≤ 8
    · rw [if_pos hr] at h
      cases h
      exact hr
    · rw [if_neg hr] at h
      cases h

theorem firstFree_range {used : List ℚ} {f : ℚ}
    (h : firstFree used = some f) : 1 ≤ f ∧ f ≤ 8 := by
  have hm := List.mem_of_find?_eq_some h
  have : f = 1 ∨ f = 2 ∨ f = 3 ∨ f = 4 ∨ f = 5 ∨ f = 6 ∨ f = 7 ∨ f = 8 := by
    simpa using hm
  rcases this with rfl | rfl | rfl | rfl | rfl | rfl | rfl | rfl <;> norm_num

theorem resolvePosition_range {used : List ℚ} {cand : Option ℚ} {q : ℚ}
    (h : resolvePosition used cand = some q) : 1 ≤ q ∧ q ≤ 8 := by
  rw [resolvePosition] at h
  cases hc : clampPosition cand with
  | none =>
    rw [hc] at h
    exact firstFree_range h
  | some p =>
    simp only [hc] at h
    by_cases hu : used.contains p
    · simp only [if_pos hu] at h
      cases hf : firstFree used with
      | some f =>
        simp only [hf, Option.some.injEq] at h
        subst h
        exact firstFree_range hf
      | none =>
        simp only [hf, Option.some.injEq] at h
        subst h
        exact clampPosition_range hc
    · simp only [if_neg hu, Option.some.injEq] at h
      subst h
      exact clampPosition_range hc

/-- Invariant of the placement loop: a successful run keeps the used
positions pairwise distinct and in `[1,8]`, and grows the used list by
exactly the number of inserts. -/
theorem runPlacement_ok_spec (candidates : List (Option ℚ)) :
    ∀ (used : List ℚ) (inserted skipped : Nat), used.Nodup →
    (∀ q ∈ used, 1 ≤ q ∧ q ≤ 8) →
    ∀ used' ins' skip',
      runPlacement candidates used inserted skipped = .ok (used', ins', skip') →
      used'.Nodup ∧ (∀ q ∈ used', 1 ≤ q ∧ q ≤ 8) ∧
        used'.length + inserted = used.length + ins' := by
  induction candidates with
  | nil =>
    intro used inserted skipped h1 h2 used' ins' skip' heq
    rw [runPlacement] at heq
    simp only [Except.ok.injEq, Prod.mk.injEq] at heq
    obtain ⟨rfl, rfl, rfl⟩ := heq
    exact ⟨h1, h2, rfl⟩
  | cons cand rest ih =>
    intro used inserted skipped h1 h2 used' ins' skip' heq
    rw [runPlacement] at heq
    cases hres : resolvePosition used cand with
    | none =>
      rw [hres] at heq
      exact ih used inserted (skipped + 1) h1 h2 used' ins' skip' heq
    | some q =>
      simp only [hres] at heq
      by_cases hu : used.contains q
      · simp only [if_pos hu] at heq
        cases heq
      · simp only [if_neg hu] at heq
        have hqnot : q ∉ used := fun hmem =>
          hu (List.elem_eq_true_of_mem hmem)
        have hnodup' : (used ++ [q]).Nodup := by
          rw [List.nodup_append]
          refine ⟨h1, List.nodup_singleton q, ?_⟩
          intro x hx hx'
          rw [List.mem_singleton] at hx'
          subst hx'
          exact hqnot hx
        have hrange' : ∀ p ∈ used ++ [q], 1 ≤ p ∧ p ≤ 8 := by
          intro p hp
          rcases List.mem_append.mp hp with hp' | hp'
          · exact h2 p hp'
          · rw [List.mem_singleton] at hp'
            subst hp'
            exact resolvePosition_range hres
        have := ih (used ++ [q]) (inserted + 1) skipped hnodup' hrange'
          used' ins' skip' heq
        refine ⟨this.1, this.2.1, ?_⟩
        have hlen := this.2.2
        rw [List.length_append] at hlen
        simp only [List.length_singleton] at hlen
        omega

/-- **C10, counterexample.** Two deviations from the claim.  First, a
ninth sub-goal whose in-range position is already taken is *not*
skipped when all 8 positions are used: the fallback loop leaves the
taken candidate in place, the insert violates `UNIQUE`, and the
whole import transaction aborts.  Second, a fractional in-range position such
as `3/2` is accepted verbatim by `clampPosition`, so one goal can end
up with nine sub-goals. -/
theorem import_overfull_insert_aborts_rather_than_skips :
    runPlacement (List.replicate 9 (some 1)) [] 0 0 = .error () ∧
    runPlacement [some 1, some (3 / 2), some 2, some 3, some 4, some 5, some 6,
      some 7, some 8] [] 0 0 =
      .ok ([1, 3 / 2, 2, 3, 4, 5, 6, 7, 8], 9, 0) := by
  refine ⟨rfl, ?_⟩
  norm_num [runPlacement, resolvePosition, clampPosition, firstFree,
    List.contains, List.find?]

/-- **C10, amended.** A sub-goal (or action) whose incoming position is
missing, non-numeric, out of range, or already taken is reassigned the
lowest free position of `1..8`; when all 8 positions are taken it is
skipped only if its incoming position was missing/invalid — a valid but
taken incoming position is inserted anyway, violating `UNIQUE` and
aborting the whole import.  Consequently, for every goal a
successful import creates, sibling positions are pairwise distinct and lie in
`[1,8]`, the inserted count equals the number of stored positions, and
when the stored positions are all integral there are at most 8 of them
(a fractional in-range payload position is kept as-is and can push the
count past 8). -/
theorem import_placement_reestablishes_invariant
    (candidates : List (Option ℚ)) (used : List ℚ) (ins skip : Nat)
    (h : runPlacement candidates [] 0 0 = .ok (used, ins, skip)) :
    used.Nodup ∧ (∀ q ∈ used, 1 ≤ q ∧ q ≤ 8) ∧ ins = used.length ∧
    ((∀ q ∈ used, ∃ n : ℤ, q = (n : ℚ)) → used.length ≤ 8) := by
  have hs := runPlacement_ok_spec candidates [] 0 0 List.nodup_nil
    (by intro q hq; cases hq) used ins skip h
  obtain ⟨h1, h2, h3⟩ := hs
  refine ⟨h1, h2, by simpa using h3.symm, fun hint =>
    nodup_int_positions_le_eight used h1 h2 hint⟩

/-- Witness for C10's amended claim: importing positions `1, 1, null`
stores `1, 2, 3` — distinct, in range, three inserts, at most 8. -/
theorem import_placement_reestablishes_invariant_witness :
    runPlacement [some 1, some 1, none] [] 0 0 = .ok ([1, 2, 3], 3, 0) ∧
    [(1 : ℚ), 2, 3].Nodup ∧ (∀ q ∈ [(1 : ℚ), 2, 3], 1 ≤ q ∧ q ≤ 8) ∧
    (3 : Nat) = [(1 : ℚ), 2, 3].length ∧ [(1 : ℚ), 2, 3].length ≤ 8 := by
  have h : runPlacement [some 1, some 1, none] [] 0 0 = .ok ([1, 2, 3], 3, 0) := rfl
  have hc := import_placement_reestablishes_invariant [some 1, some 1, none]
    [1, 2, 3] 3 0 h
  refine ⟨h, hc.1, hc.2.1, hc.2.2.1, hc.2.2.2 ?_⟩
  intro q hq
  have : q = 1 ∨ q = 2 ∨ q = 3 := by simpa using hq
  rcases this with rfl | rfl | rfl
  · exact ⟨1, by norm_num⟩
  · exact ⟨2, by norm_num⟩
  · exact ⟨3, by norm_num⟩

/-! ## The 9×9 grid coordinate tables

`FullGridView` (frontend) renders a 9×9 grid of `(row, col)` cells with
`row, col ∈ 0..8`; the central 3×3 block (`row, col ∈ 3..5`) is the
merged primary-goal cell.  `subGoalMap` places the 8 sub-goals at the
centers of the eight outer 3×3 mini-grids, and `actionMaps` places each
sub-goal's 8 actions on the ring around its center. -/

/-- `subGoalMap` (`FullGridView`): `"row-col"` keys are embedded as
coordinate pairs. -/
def subGoalMap : List ((Nat × Nat) × Nat) :=
  [((1, 1), 1), ((1, 4), 2), ((1, 7), 3),
   ((4, 7), 4),
   ((7, 7), 5), ((7, 4), 6), ((7, 1), 7),
   ((4, 1), 8)]

/-- `actionMaps` (`FullGridView`): cell `(row, col)` holds action
`actionPos` of sub-goal `subGoalPos`, embedded as
`((row, col), (subGoalPos, actionPos))`. -/
def actionMaps : List ((Nat × Nat) × (Nat × Nat)) :=
  [((0, 0), (1, 1)), ((0, 1), (1, 2)), ((0, 2), (1, 3)), ((1, 2), (1, 4)),
   ((2, 2), (1, 5)), ((2, 1), (1, 6)), ((2, 0), (1, 7)), ((1, 0), (1, 8)),
   ((0, 3), (2, 1)), ((0, 4), (2, 2)), ((0, 5), (2, 3)), ((1, 5), (2, 4)),
   ((2, 5), (2, 5)), ((2, 4), (2, 6)), ((2, 3), (2, 7)), ((1, 3), (2, 8)),
   ((0, 6), (3, 1)), ((0, 7), (3, 2)), ((0, 8), (3, 3)), ((1, 8), (3, 4)),
   ((2, 8), (3, 5)), ((2, 7), (3, 6)), ((2, 6), (3, 7)), ((1, 6), (3, 8)),
   ((3, 6), (4, 1)), ((3, 7), (4, 2)), ((3, 8), (4, 3)), ((4, 8), (4, 4)),
   ((5, 8), (4, 5)), ((5, 7), (4, 6)), ((5, 6), (4, 7)), ((4, 6), (4, 8)),
   ((6, 6), (5, 1)), ((6, 7), (5, 2)), ((6, 8), (5, 3)), ((7, 8), (5, 4)),
   ((8, 8), (5, 5)), ((8, 7), (5, 6)), ((8, 6), (5, 7)), ((7, 6), (5, 8)),
   ((6, 3), (6, 1)), ((6, 4), (6, 2)), ((6, 5), (6, 3)), ((7, 5), (6, 4)),
   ((8, 5), (6, 5)), ((8, 4), (6, 6)), ((8, 3), (6, 7)), ((7, 3), (6, 8)),
   ((6, 0), (7, 1)), ((6, 1), (7, 2)), ((6, 2), (7, 3)), ((7, 2), (7, 4)),
   ((8, 2), (7, 5)), ((8, 1), (7, 6)), ((8, 0), (7, 7)), ((7, 0), (7, 8)),
   ((3, 0), (8, 1)), ((3, 1), (8, 2)), ((3, 2), (8, 3)), ((4, 2), (8, 4)),
   ((5, 2), (8, 5)), ((5, 1), (8, 6)), ((5, 0), (8, 7)), ((4, 0), (8, 8))]

/-- The 81 cells of the render loop
(`Array.from({length: 9}, (_, row) => Array.from({length: 9}, (_, col) => ...))`). -/
def gridCells : List (Nat × Nat) :=
  (List.range 9).flatMap fun row => (List.range 9).map fun col => (row, col)

/-- The skip test of the render loop:
`row >= 3 && row <= 5 && col >= 3 && col <= 5`. -/
def inCenterBlock (p : Nat × Nat) : Bool :=
  decide (3 ≤ p.1) && decide (p.1 ≤ 5) && decide (3 ≤ p.2) && decide (p.2 ≤ 5)

/-- The eight sub-goal center cells, in table order. -/
def subGoalCenters : List (Nat × Nat) := subGoalMap.map Prod.fst

/-- `q` lies in the 3×3 mini-grid around `p` without being `p` itself. -/
def chebyshevAdjacent (p q : Nat × Nat) : Prop :=
  max p.1 q.1 - min p.1 q.1 ≤ 1 ∧ max p.2 q.2 - min p.2 q.2 ≤ 1 ∧ p ≠ q

instance (p q : Nat × Nat) : Decidable (chebyshevAdjacent p q) := by
  unfold chebyshevAdjacent; infer_instance

/-- **C4.** The static coordinate tables tile the 9×9 grid exactly:
outside the central 3×3 block, `subGoalMap` assigns exactly the eight
listed center cells to sub-goal positions 1..8 bijectively, `actionMaps`
assigns exactly the remaining 64 cells to `(subGoalPos, actionPos)`
pairs covering `{1..8} × {1..8}` exactly once each, neither table
touches the center block, and every action cell is adjacent to its
sub-goal's center cell. -/
theorem grid_tables_tile_exactly :
    subGoalMap.map Prod.fst =
      [(1, 1), (1, 4), (1, 7), (4, 7), (7, 7), (7, 4), (7, 1), (4, 1)] ∧
    subGoalMap.map Prod.snd = [1, 2, 3, 4, 5, 6, 7, 8] ∧
    (∀ p ∈ gridCells, inCenterBlock p = false →
      ((subGoalMap.lookup p).isSome ↔ p ∈ subGoalCenters)) ∧
    (∀ p ∈ gridCells, inCenterBlock p = false →
      ((actionMaps.lookup p).isSome ↔ p ∉ subGoalCenters)) ∧
    (∀ p ∈ gridCells, inCenterBlock p = true →
      subGoalMap.lookup p = none ∧ actionMaps.lookup p = none) ∧
    (gridCells.filter fun p => !(inCenterBlock p)).length = 72 ∧
    actionMaps.length = 64 ∧
    (actionMaps.map Prod.fst).Nodup ∧
    (actionMaps.map Prod.snd).Nodup ∧
    (∀ sp ∈ [1, 2, 3, 4, 5, 6, 7, 8], ∀ ap ∈ [1, 2, 3, 4, 5, 6, 7, 8],
      ((sp : Nat), (ap : Nat)) ∈ actionMaps.map Prod.snd) ∧
    (∀ e ∈ actionMaps, ∀ c ∈ subGoalMap, c.2 = e.2.1 →
      chebyshevAdjacent c.1 e.1) := by
  decide

/-- Witness for C4: cell `(1,1)` sits outside the center block and is a
sub-goal center; cell `(0,0)` holds an action adjacent to it. -/
theorem grid_tables_tile_exactly_witness :
    ((1, 1) : Nat × Nat) ∈ gridCells ∧ inCenterBlock (1, 1) = false ∧
    ((subGoalMap.lookup ((1 : Nat), (1 : Nat))).isSome ↔
      ((1, 1) : Nat × Nat) ∈ subGoalCenters) ∧
    chebyshevAdjacent (1, 1) (0, 0) :=
  ⟨by decide, by decide,
    grid_tables_tile_exactly.2.2.1 (1, 1) (by decide) (by decide),
    grid_tables_tile_exactly.2.2.2.2.2.2.2.2.2.2 ((0, 0), (1, 1)) (by decide)
      ((1, 1), 1) (by decide) (by decide)⟩

end Harada

namespace Color

/-! ## The color-derivation helpers

`frontend/src/utils/color.ts`.  JavaScript strings are Lean strings;
the `percent` argument (a JavaScript number) is a rational;
`Math.round(x)` is `⌊x + 1/2⌋`. -/

/-- A character accepted by the regex class `[a-f\d]` under the `i`
flag. -/
def isHexDigit (c : Char) : Bool :=
  ('0' ≤ c && c ≤ '9') || ('a' ≤ c && c ≤ 'f') || ('A' ≤ c && c ≤ 'F')

/-- The optional leading `#?` of `hexRegex`: the body the regex matches
against. -/
def hexBody (cs : List Char) : List Char :=
  match cs with
  | '#' :: rest => rest
  | _ => cs

/-- `hexRegex.test(hex)` for `/^#?([a-f\d]{6}|[a-f\d]{3})$/i`. -/
def hexTestL (cs : List Char) : Bool :=
  ((hexBody cs).length == 6 || (hexBody cs).length == 3) &&
    (hexBody cs).all isHexDigit

/-- `hexRegex.test` on a string. -/
def hexTest (s : String) : Bool := hexTestL s.data

/-- `value.split('').map((c) => c + c).join('')`. -/
def expand3 (cs : List Char) : List Char := cs.flatMap fun c => [c, c]

/-- `normalizeHex` over the character list: reject non-matching input as
`#cccccc`, strip the optional `#`, double a 3-digit body, lowercase. -/
def normalizeHexL (cs : List Char) : List Char :=
  if hexTestL cs then
    '#' :: ((if (hexBody cs).length = 3 then expand3 (hexBody cs)
      else hexBody cs).map Char.toLower)
  else
    ['#', 'c', 'c', 'c', 'c', 'c', 'c']

/-- `normalizeHex` (`utils/color.ts`). -/
def normalizeHex (s : String) : String := ⟨normalizeHexL s.data⟩

/-- `hex.replace('#', '')`: `String.replace` with a string pattern
replaces only the first occurrence. -/
def removeFirstHash (cs : List Char) : List Char :=
  match cs with
  | [] => []
  | c :: rest => if c = '#' then rest else c :: removeFirstHash rest

/-- Value of one hex digit, as `parseInt` reads it (0 for anything
else — `parseInt` would bail out instead, but the helpers only parse
strings of hex digits). -/
def hexCharVal (c : Char) : Nat :=
  if '0' ≤ c && c ≤ '9' then c.toNat - '0'.toNat
  else if 'a' ≤ c && c ≤ 'f' then c.toNat - 'a'.toNat + 10
  else if 'A' ≤ c && c ≤ 'F' then c.toNat - 'A'.toNat + 10
  else 0

/-- `parseInt(cs, 16)` over hex digits. -/
def parseHexNat (cs : List Char) : Nat :=
  cs.foldl (fun acc c => 16 * acc + hexCharVal c) 0

/-- `hexToRgb` (`utils/color.ts`): `(value >> 16) & 255`,
`(value >> 8) & 255`, `value & 255`. -/
def hexToRgb (s : String) : Nat × Nat × Nat :=
  ((parseHexNat (removeFirstHash s.data) >>> 16) &&& 255,
    (parseHexNat (removeFirstHash s.data) >>> 8) &&& 255,
    parseHexNat (removeFirstHash s.data) &&& 255)

/-- `Math.min(Math.max(percent, 0), 100) / 100`. -/
def clampRatio (percent : ℚ) : ℚ := min (max percent 0) 100 / 100

/-- `Math.round`. -/
def jsRound (x : ℚ) : ℤ := ⌊x + 1 / 2⌋

/-- The lowercase hex digits `value.toString(16)` emits. -/
def hexDigitChar (n : Nat) : Char :=
  "0123456789abcdef".data.getD n '0'

/-- `value.toString(16).padStart(2, '0')`, for the byte range the
helpers produce. -/
def toHexByte (n : Int) : String :=
  if n.toNat < 16 then ⟨['0', hexDigitChar n.toNat]⟩
  else ⟨[hexDigitChar (n.toNat / 16), hexDigitChar (n.toNat % 16)]⟩

/-- `lightenColor` (`utils/color.ts`). -/
def lightenColor (hex : String) (percent : ℚ) : String :=
  let rgb := hexToRgb (normalizeHex hex)
  let ratio := clampRatio percent
  "#" ++ toHexByte (jsRound ((rgb.1 : ℚ) + (255 - (rgb.1 : ℚ)) * ratio)) ++
    toHexByte (jsRound ((rgb.2.1 : ℚ) + (255 - (rgb.2.1 : ℚ)) * ratio)) ++
    toHexByte (jsRound ((rgb.2.2 : ℚ) + (255 - (rgb.2.2 : ℚ)) * ratio))

/-- `darkenColor` (`utils/color.ts`). -/
def darkenColor (hex : String) (percent : ℚ) : String :=
  let rgb := hexToRgb (normalizeHex hex)
  let ratio := clampRatio percent
  "#" ++ toHexByte (jsRound ((rgb.1 : ℚ) * (1 - ratio))) ++
    toHexByte (jsRound ((rgb.2.1 : ℚ) * (1 - ratio))) ++
    toHexByte (jsRound ((rgb.2.2 : ℚ) * (1 - ratio)))

/-- A lowercase hexadecimal digit. -/
def isLowerHexDigit (c : Char) : Bool :=
  ('0' ≤ c && c ≤ '9') || ('a' ≤ c && c ≤ 'f')

/-- `'#'` followed by exactly six lowercase hex digits. -/
def isHexColorLiteral (s : String) : Prop :=
  s.length = 7 ∧ s.data.head? = some '#' ∧
    ∀ c ∈ s.data.tail, isLowerHexDigit c = true

/-! ### Bounds and shapes -/

theorem clampRatio_bounds (p : ℚ) : 0 ≤ clampRatio p ∧ clampRatio p ≤ 1 := by
  unfold clampRatio
  constructor
  · have h0 : (0 : ℚ) ≤ min (max p 0) 100 :=
      le_min (le_max_right p 0) (by norm_num)
    positivity
  · have h1 : min (max p 0) 100 ≤ 100 := min_le_right _ _
    rw [div_le_one (by norm_num)]
    exact h1

theorem clampRatio_eq_one {p : ℚ} (hp : 100 ≤ p) : clampRatio p = 1 := by
  unfold clampRatio
  rw [max_eq_left (le_trans (by norm_num) hp), min_eq_right hp]
  norm_num

theorem jsRound_bounds {x : ℚ} (h0 : 0 ≤ x) (h255 : x ≤ 255) :
    0 ≤ jsRound x ∧ jsRound x ≤ 255 := by
  unfold jsRound
  constructor
  · rw [Int.le_floor]
    push_cast
    linarith
  · rw [Int.floor_le_iff]
    push_cast
    linarith

theorem hexDigitChar_lower : ∀ m : Fin 16, isLowerHexDigit (hexDigitChar m.val) = true := by
  decide

theorem toHexByte_shape {n : Int} (h0 : 0 ≤ n) (h255 : n ≤ 255) :
    (toHexByte n).data.length = 2 ∧
      ∀ c ∈ (toHexByte n).data, isLowerHexDigit c = true := by
  have hm : n.toNat ≤ 255 := by omega
  rw [toHexByte]
  by_cases hlt : n.toNat < 16
  · rw [if_pos hlt]
    refine ⟨rfl, ?_⟩
    intro c hc
    rcases List.mem_cons.mp hc with rfl | hc'
    · decide
    · rcases List.mem_singleton.mp hc' with rfl
      exact hexDigitChar_lower ⟨n.toNat, hlt⟩
  · rw [if_neg hlt]
    refine ⟨rfl, ?_⟩
    intro c hc
    have hdiv : n.toNat / 16 < 16 := by omega
    have hmod : n.toNat % 16 < 16 := by omega
    rcases List.mem_cons.mp hc with rfl | hc'
    · exact hexDigitChar_lower ⟨n.toNat / 16, hdiv⟩
    · rcases List.mem_singleton.mp hc' with rfl
      exact hexDigitChar_lower ⟨n.toNat % 16, hmod⟩

theorem hash_bytes_shape {n1 n2 n3 : Int}
    (h1 : 0 ≤ n1 ∧ n1 ≤ 255) (h2 : 0 ≤ n2 ∧ n2 ≤ 255) (h3 : 0 ≤ n3 ∧ n3 ≤ 255) :
    isHexColorLiteral ("#" ++ toHexByte n1 ++ toHexByte n2 ++ toHexByte n3) := by
  obtain ⟨hl1, hc1⟩ := toHexByte_shape h1.1 h1.2
  obtain ⟨hl2, hc2⟩ := toHexByte_shape h2.1 h2.2
  obtain ⟨hl3, hc3⟩ := toHexByte_shape h3.1 h3.2
  have hdata : ("#" ++ toHexByte n1 ++ toHexByte n2 ++ toHexByte n3).data =
      '#' :: ((toHexByte n1).data ++ (toHexByte n2).data ++ (toHexByte n3).data) := by
    rw [String.data_append, String.data_append, String.data_append]
    rfl
  refine ⟨?_, ?_, ?_⟩
  · show ("#" ++ toHexByte n1 ++ toHexByte n2 ++ toHexByte n3).data.length = 7
    rw [hdata]
    simp [hl1, hl2, hl3]
  · rw [hdata]
    rfl
  · intro c hc
    rw [hdata] at hc
    simp only [List.tail_cons] at hc
    rcases List.mem_append.mp hc with hc' | hc'
    · rcases List.mem_append.mp hc' with hc'' | hc''
      · exact hc1 c hc''
      · exact hc2 c hc''
    · exact hc3 c hc'

theorem mix_lighten_bounds (r : Nat) (hr : r ≤ 255) {ratio : ℚ}
    (h0 : 0 ≤ ratio) (h1 : ratio ≤ 1) :
    0 ≤ (r : ℚ) + (255 - (r : ℚ)) * ratio ∧
      (r : ℚ) + (255 - (r : ℚ)) * ratio ≤ 255 := by
  have hr0 : (0 : ℚ) ≤ (r : ℚ) := Nat.cast_nonneg r
  have hr255 : (r : ℚ) ≤ 255 := by exact_mod_cast hr
  constructor
  · nlinarith
  · nlinarith

theorem mix_darken_bounds (r : Nat) (hr : r ≤ 255) {ratio : ℚ}
    (h0 : 0 ≤ ratio) (h1 : ratio ≤ 1) :
    0 ≤ (r : ℚ) * (1 - ratio) ∧ (r : ℚ) * (1 - ratio) ≤ 255 := by
  have hr0 : (0 : ℚ) ≤ (r : ℚ) := Nat.cast_nonneg r
  have hr255 : (r : ℚ) ≤ 255 := by exact_mod_cast hr
  constructor
  · nlinarith
  · nlinarith

theorem jsRound_255 : jsRound 255 = 255 := by
  unfold jsRound
  rw [Int.floor_eq_iff]
  norm_num

theorem jsRound_0 : jsRound 0 = 0 := by
  unfold jsRound
  rw [Int.floor_eq_iff]
  norm_num

/-- **C8.** `lightenColor` and `darkenColor` are total and
shape-preserving: for every input string and every rational percent the
result is `'#'` followed by exactly six lowercase hex digits; an input
not matching 3- or 6-digit hex normalizes to `#cccccc`; and the percent
clamp makes `lightenColor` return `#ffffff` and `darkenColor` return
`#000000` for every percent ≥ 100. -/
theorem color_helpers_shape_and_clamp :
    (∀ (s : String) (p : ℚ),
      isHexColorLiteral (lightenColor s p) ∧ isHexColorLiteral (darkenColor s p)) ∧
    (∀ s : String, hexTest s = false → normalizeHex s = "#cccccc") ∧
    (∀ (s : String) (p : ℚ), 100 ≤ p → lightenColor s p = "#ffffff") ∧
    (∀ (s : String) (p : ℚ), 100 ≤ p → darkenColor s p = "#000000") := by
  refine ⟨?_, ?_, ?_, ?_⟩
  · intro s p
    obtain ⟨hq0, hq1⟩ := clampRatio_bounds p
    constructor
    · refine hash_bytes_shape ?_ ?_ ?_ <;>
      · obtain ⟨hb0, hb255⟩ := mix_lighten_bounds _ Nat.and_le_right hq0 hq1
        exact jsRound_bounds hb0 hb255
    · refine hash_bytes_shape ?_ ?_ ?_ <;>
      · obtain ⟨hb0, hb255⟩ := mix_darken_bounds _ Nat.and_le_right hq0 hq1
        exact jsRound_bounds hb0 hb255
  · intro s hs
    have hs' : hexTestL s.data = false := hs
    rw [normalizeHex, normalizeHexL, if_neg (by simp [hs'])]
  · intro s p hp
    rw [lightenColor]
    rw [clampRatio_eq_one hp]
    have hmix : ∀ r : Nat, (r : ℚ) + (255 - (r : ℚ)) * 1 = 255 := by
      intro r; ring
    rw [hmix, hmix, hmix, jsRound_255]
    decide
  · intro s p hp
    rw [darkenColor]
    rw [clampRatio_eq_one hp]
    have hmix : ∀ r : Nat, (r : ℚ) * (1 - 1) = 0 := by
      intro r; ring
    rw [hmix, hmix, hmix, jsRound_0]
    decide

/-- Witness for C8: the non-hex input `"xyz"` normalizes to `#cccccc`,
and percent 150 saturates both helpers. -/
theorem color_helpers_shape_and_clamp_witness :
    normalizeHex "xyz" = "#cccccc" ∧
    lightenColor "xyz" 150 = "#ffffff" ∧
    darkenColor "xyz" 150 = "#000000" :=
  ⟨color_helpers_shape_and_clamp.2.1 "xyz" (by decide),
    color_helpers_shape_and_clamp.2.2.1 "xyz" 150 (by norm_num),
    color_helpers_shape_and_clamp.2.2.2 "xyz" 150 (by norm_num)⟩

end Color

namespace Api

/-! ## Response envelope shapes

The CRUD routers (`routes/goals.ts`, `subgoals.ts`, `actions.ts`,
`logs.ts`, `guestbook.ts`, `user.ts`) build every response as a literal
`{ success, data, error }` object.  The auth router (`routes/auth.ts`)
instead writes `{ success, error }` on error paths and
`{ success, data }` on success paths, and the `GET /api` documentation
endpoint (`index.ts`) responds with a plain object that is no envelope
at all.  Representative endpoints of each kind are embedded. -/

/-- A JSON value, as far as response shapes are concerned. -/
inductive Json where
  | null
  | bool (b : Bool)
  | str (s : String)
  | num (n : Int)
  | arr (elems : List Json)
  | obj (fields : List (String × Json))

/-- The top-level keys of a JSON object. -/
def topKeys : Json → List String
  | .obj fields => fields.map Prod.fst
  | _ => []

/-- The body is an object carrying key `k` at top level. -/
def hasKey (j : Json) (k : String) : Prop := k ∈ topKeys j

instance (j : Json) (k : String) : Decidable (hasKey j k) := by
  unfold hasKey; infer_instance

/-- The `{success, data, error}` envelope: all three keys present. -/
def isEnvelope (j : Json) : Prop :=
  hasKey j "success" ∧ hasKey j "data" ∧ hasKey j "error"

instance (j : Json) : Decidable (isEnvelope j) := by
  unfold isEnvelope; infer_instance

/-- The `data` payload of a successful `GET /:subgoalId`: the row plus
its actions (`{ ...subGoal, actions }`). -/
def subGoalJson (sg : Harada.Row) (actions : List Harada.Row) : Json :=
  .obj [("id", .num (Int.ofNat sg.id)),
    ("primary_goal_id", .num (Int.ofNat sg.parentId)),
    ("position", .num sg.position),
    ("updated_at", .num (Int.ofNat sg.updated_at)),
    ("actions", .arr (actions.map fun a =>
      .obj [("id", .num (Int.ofNat a.id)), ("position", .num a.position)]))]

/-- `GET /:subgoalId` (`routes/subgoals.ts`): the 404 and 200 paths
(the catch-path 500 uses the same literal three-key envelope). -/
def getSubGoalResponse (subGoals actions : List Harada.Row) (sgid : Nat) :
    Nat × Json :=
  match Harada.findRow subGoals sgid with
  | none =>
    (404, .obj [("success", .bool false), ("data", .null),
      ("error", .str "Sub-goal not found")])
  | some sg =>
    (200, .obj [("success", .bool true),
      ("data", subGoalJson sg (actions.filter fun a => a.parentId == sgid)),
      ("error", .null)])

/-- `POST /register` (`routes/auth.ts`): a missing (or empty, modelled
as `none`) username or password yields `{success, error}` with no
`data`; an existing username likewise; success yields `{success, data}`
with no `error`. -/
def registerResponse (existingUsernames : List String)
    (username password : Option String) (newId : Nat) : Nat × Json :=
  match username, password with
  | none, _ =>
    (400, .obj [("success", .bool false),
      ("error", .str "Username and password are required")])
  | _, none =>
    (400, .obj [("success", .bool false),
      ("error", .str "Username and password are required")])
  | some u, some _ =>
    if existingUsernames.contains u then
      (400, .obj [("success", .bool false),
        ("error", .str "Username already exists")])
    else
      (200, .obj [("success", .bool true),
        ("data", .obj [("id", .num (Int.ofNat newId)), ("username", .str u),
          ("email", .null)])])

/-- `GET /api` (`index.ts`): the documentation endpoint responds with a
plain object — no envelope.  Nested content is abbreviated; only the
key structure matters here. -/
def apiDocResponse : Nat × Json :=
  (200, .obj [("name", .str "Harada Method API"),
    ("description", .str "API for the Harada Method goal tracking system."),
    ("owner", .str "Jacob Stokes"),
    ("structure", .obj [("overview", .str ""), ("data_model", .obj [])]),
    ("endpoints", .obj [("user_summary", .obj []), ("goals", .obj []),
      ("subgoals", .obj []), ("actions", .obj []), ("logs", .obj [])]),
    ("recommended_flow", .arr []),
    ("notes", .arr [])])

/-- **C6, counterexample.** Not every response carries all three
envelope keys: `POST /register` with a missing username responds 400
with `{success, error}` and no `data` key, and the `GET /api`
documentation response has none of the three keys. -/
theorem register_response_lacks_data_key :
    (registerResponse [] none none 0).1 = 400 ∧
    ¬ hasKey (registerResponse [] none none 0).2 "data" ∧
    ¬ hasKey apiDocResponse.2 "success" := by
  decide

/-- **C6, amended.** The CRUD routers (goals, sub-goals, actions, logs,
guestbook, user summary) emit the full `{success, data, error}`
envelope on every path — shown here for the representative
`GET /:subgoalId` — while the auth router always emits `success` but
pairs it with `error` exactly on its 400 paths and with `data` exactly
on its 200 path, and the `GET /api` documentation endpoint is not
enveloped at all. -/
theorem response_envelopes_by_router (subGoals actions : List Harada.Row)
    (sgid : Nat) (users : List String) (username password : Option String)
    (newId : Nat) :
    isEnvelope (getSubGoalResponse subGoals actions sgid).2 ∧
    hasKey (registerResponse users username password newId).2 "success" ∧
    (hasKey (registerResponse users username password newId).2 "data" ↔
      (registerResponse users username password newId).1 = 200) ∧
    (hasKey (registerResponse users username password newId).2 "error" ↔
      (registerResponse users username password newId).1 = 400) ∧
    ¬ hasKey apiDocResponse.2 "success" ∧
    ¬ hasKey apiDocResponse.2 "data" ∧
    ¬ hasKey apiDocResponse.2 "error" := by
  refine ⟨?_, ?_, ?_, ?_, by decide, by decide, by decide⟩
  · cases h : Harada.findRow subGoals sgid with
    | none => simp [getSubGoalResponse, h, isEnvelope, hasKey, topKeys]
    | some sg => simp [getSubGoalResponse, h, isEnvelope, hasKey, topKeys]
  all_goals
    cases username with
    | none => simp [registerResponse, hasKey, topKeys]
    | some u =>
      cases password with
      | none => simp [registerResponse, hasKey, topKeys]
      | some pw =>
        by_cases hc : u ∈ users
        · simp [registerResponse, hc, hasKey, topKeys]
        · simp [registerResponse, hc, hasKey, topKeys]

/-- Witness for C6's amended claim, at one concrete request each: a
sub-goal lookup on an empty table is still enveloped, and a register
request with no username still carries `success`. -/
theorem response_envelopes_by_router_witness :
    isEnvelope (getSubGoalResponse [] [] 1).2 ∧
    hasKey (registerResponse [] none none 0).2 "success" :=
  ⟨(response_envelopes_by_router [] [] 1 [] none none 0).1,
    (response_envelopes_by_router [] [] 1 [] none none 0).2.1⟩

end Api
